import Mathlib

/-!
Verification of the SSML mod-loader core (`core.py`) against its
natural-language specification.

Modelling conventions (shallow embedding):
* File paths are lists of path components (`FPath`), always relative to the
  relevant root directory (game resource dir, mods dir, backups dir).
* File contents are abstract values (`Content := Nat`); a directory tree is an
  association list from paths to contents, looked up by first match.
* SHA-256 hashing (`hashlib.sha256(...).hexdigest()`) is modelled by an
  arbitrary fingerprint function `sha256 : Content → String` that each theorem
  quantifies over; hex digests of real SHA-256 are never the empty string, so
  witnesses use an everywhere-nonempty instance.
* Python string operations used by the backup-filename encoding are re-coded
  here at character-list level so that they compute by `decide`:
  `pySplit` is Python `str.split(sep)` for a nonempty separator
  (leftmost, non-overlapping matches).
-/

namespace SSML

/-- A file path, as its list of components relative to some root. -/
abbrev FPath := List String

/-- Abstract file contents (stands for the byte string of a file). -/
abbrev Content := Nat

/-- The filename component of a path (`Path.name` in the source). -/
def pathName (p : FPath) : String :=
  (p.getLast?).getD ("")

/-- First-match lookup in a directory tree (association list). -/
def fsLookup {α : Type} (fs : List (FPath × α)) (p : FPath) : Option α :=
  match fs with
  | [] => none
  | (q, c) :: rest => if q = p then some c else fsLookup rest p

/-- Overwrite-or-create a file: replaces the first binding of `p`, else appends. -/
def fsWrite {α : Type} (fs : List (FPath × α)) (p : FPath) (c : α) : List (FPath × α) :=
  match fs with
  | [] => [(p, c)]
  | (q, d) :: rest => if q = p then (q, c) :: rest else (q, d) :: fsWrite rest p c

/-- Delete a file: removes the first binding of `p` (`Path.unlink`). -/
def fsErase {α : Type} (fs : List (FPath × α)) (p : FPath) : List (FPath × α) :=
  match fs with
  | [] => []
  | (q, d) :: rest => if q = p then rest else (q, d) :: fsErase rest p

/-- `isPrefixOfL pre l` decides whether `pre` is a prefix of `l`. -/
def isPrefixOfL : List Char → List Char → Bool
  | [], _ => true
  | _ :: _, [] => false
  | c :: cs, d :: ds => c = d && isPrefixOfL cs ds

/-- Python `s.startswith(p)`. -/
def strStartsWith (s p : String) : Bool :=
  isPrefixOfL p.data s.data

/-- Python `s.endswith(p)` (used for the `*{ext}` glob pattern on filenames). -/
def strEndsWith (s p : String) : Bool :=
  isPrefixOfL p.data.reverse s.data.reverse

/-- Worker for `pySplit`; `fuel` bounds the recursion by the string length,
which suffices because the separator is nonempty. -/
def pySplitAux (sep : List Char) : Nat → List Char → List Char → List (List Char)
  | _, acc, [] => [acc.reverse]
  | 0, acc, rest => [acc.reverse ++ rest]
  | fuel + 1, acc, c :: cs =>
    if isPrefixOfL sep (c :: cs) then
      acc.reverse :: pySplitAux sep fuel [] (List.drop sep.length (c :: cs))
    else
      pySplitAux sep fuel (c :: acc) cs

/-- Python `s.split(sep)` for a nonempty separator: splits at every leftmost
non-overlapping occurrence of `sep`, keeping empty pieces. -/
def pySplit (s sep : String) : List String :=
  (pySplitAux sep.data s.data.length [] s.data).map (fun l => ⟨l⟩)

/-- Python `".".join(parts)`. -/
def dotJoin (parts : List String) : String :=
  String.intercalate (".") parts

/-! ## `ModsStatusManager` (the status store)

`ModStatusEntry` is the `TypedDict` of the source: `path` (relative to the
mods dir), `hash` (fingerprint of the current mod file), `applied_hash`
(fingerprint of the mod content last copied into the game, empty if none),
`enabled`.  `StoreState` adds the manager's `_dirty` flag. -/

structure ModStatusEntry where
  path : FPath
  hash : String
  applied_hash : String
  enabled : Bool
deriving DecidableEq, Repr

structure StoreState where
  data : List ModStatusEntry
  dirty : Bool
deriving DecidableEq, Repr

/-- `ModsStatusManager.get_entry`: first entry whose `path` matches. -/
def get_entry (data : List ModStatusEntry) (p : FPath) : Option ModStatusEntry :=
  match data with
  | [] => none
  | e :: rest => if e.path = p then some e else get_entry rest p

/-- `ModsStatusManager.get_status`: the matching entry's `enabled` flag,
defaulting to `false` when the path is untracked. -/
def get_status (data : List ModStatusEntry) (p : FPath) : Bool :=
  match get_entry data p with
  | some e => e.enabled
  | none => false

/-- Data part of `ModsStatusManager.set_status`: sets `enabled` on the first
matching entry; when no entry matches, appends a fresh one whose `hash` is
computed from the file's bytes `modC` on disk and whose `applied_hash` is
empty. -/
def set_status_data (sha256 : Content → String) (modC : Content)
    (data : List ModStatusEntry) (p : FPath) (enabled : Bool) : List ModStatusEntry :=
  match data with
  | [] => [⟨p, sha256 modC, "", enabled⟩]
  | e :: rest =>
    if e.path = p then { e with enabled := enabled } :: rest
    else e :: set_status_data sha256 modC rest p enabled

/-- `ModsStatusManager.set_status`: both the found and the append branch call
`mark_dirty`. -/
def set_status (sha256 : Content → String) (modC : Content)
    (st : StoreState) (p : FPath) (enabled : Bool) : StoreState :=
  ⟨set_status_data sha256 modC st.data p enabled, true⟩

/-- Data part of `ModsStatusManager.set_applied_hash`: `some` of the updated
list when an entry matches, `none` when the loop falls through without a
match (the source then returns without touching anything). -/
def set_applied_hash_data (data : List ModStatusEntry) (p : FPath)
    (ah : String) : Option (List ModStatusEntry) :=
  match data with
  | [] => none
  | e :: rest =>
    if e.path = p then some ({ e with applied_hash := ah } :: rest)
    else (set_applied_hash_data rest p ah).map (e :: ·)

/-- `ModsStatusManager.set_applied_hash`: updates the first matching entry and
marks the store dirty; on an absent path it is a fall-through no-op. -/
def set_applied_hash (st : StoreState) (p : FPath) (ah : String) : StoreState :=
  match set_applied_hash_data st.data p ah with
  | some d => ⟨d, true⟩
  | none => st

/-! ## `ModsStatusManager.sync_with_files` -/

/-- The files the sync scan sees: `mods_dir.rglob(f"*{ext}")` followed by the
filter dropping filenames that start with a dot (backup/hidden files). -/
def current_mod_files (ext : String) (mods : List (FPath × Content)) :
    List (FPath × Content) :=
  (mods.filter (fun f => strEndsWith (pathName f.1) ext)).filter
    (fun f => !(strStartsWith (pathName f.1) (".")))

/-- The fresh entry created for a newly observed mod file: disabled, empty
`applied_hash`, `hash` computed from the file's content. -/
def newEntry (sha256 : Content → String) (f : FPath × Content) : ModStatusEntry :=
  ⟨f.1, sha256 f.2, "", false⟩

/-- In-place hash refresh: the body `if entry["hash"] != current_hash:
entry["hash"] = current_hash` applied to the first entry with path `p`. -/
def update_hash (data : List ModStatusEntry) (p : FPath) (h : String) :
    List ModStatusEntry :=
  match data with
  | [] => []
  | e :: rest =>
    if e.path = p then (if e.hash ≠ h then { e with hash := h } else e) :: rest
    else e :: update_hash rest p h

/-- The `for file_path in current_files` loop of `sync_with_files`: a tracked
file refreshes the hash of its entry in place, an untracked one appends a
fresh disabled entry.  `tracked` is the key set of the dict built after the
removal pass. -/
def sync_process (sha256 : Content → String) (tracked : List FPath) :
    List (FPath × Content) → List ModStatusEntry → List ModStatusEntry
  | [], s => s
  | f :: fs, s =>
    if f.1 ∈ tracked then
      sync_process sha256 tracked fs (update_hash s f.1 (sha256 f.2))
    else
      sync_process sha256 tracked fs (s ++ [newEntry sha256 f])

/-- `ModsStatusManager.sync_with_files`, returning the updated store and the
orphan list.  Mirrors the source order: collect orphans (enabled entries whose
file vanished), drop all vanished entries, then walk the current files.  Every
entry here carries an `applied_hash` field, so the migration line that inserts
a missing key is invisible in the model.  The final `mark_dirty` sets the
dirty flag. -/
def sync_with_files (sha256 : Content → String) (ext : String)
    (mods : List (FPath × Content)) (store : StoreState) :
    StoreState × List ModStatusEntry :=
  let current_files := current_mod_files ext mods
  let current_paths : List FPath := current_files.map (fun f => f.1)
  let orphaned := store.data.filter
    (fun e => !(decide (e.path ∈ current_paths)) && e.enabled)
  let data1 := store.data.filter (fun e => decide (e.path ∈ current_paths))
  let tracked := data1.map (fun e => e.path)
  (⟨sync_process sha256 tracked current_files data1, true⟩, orphaned)

/-- The in-place updates of `sync_process` on the tracked part alone (no
appends); used to state the structure of the sync result. -/
def sync_updates (sha256 : Content → String) (tracked : List FPath) :
    List (FPath × Content) → List ModStatusEntry → List ModStatusEntry
  | [], s => s
  | f :: fs, s =>
    sync_updates sha256 tracked fs
      (if f.1 ∈ tracked then update_hash s f.1 (sha256 f.2) else s)

/-! ## `StellaSoraModLoader`: the overlay engine

`LoaderState` carries the three trees the loader mutates: the game resource
tree and the backup tree (both association lists over relative paths) and the
status store.  Mod files live in the mods tree and are passed to the
operations as the pair (relative path, bytes), matching the source reading
the mod file from disk. -/

structure LoaderState where
  game : List (FPath × Content)
  backups : List (FPath × Content)
  status : StoreState
deriving DecidableEq, Repr

/-- `StellaSoraModLoader.find_original_files`: every path in the game resource
tree whose filename equals the mod file's filename
(`game_resource_dir.rglob(mod_file.name)`). -/
def find_original_files (game : List (FPath × Content)) (name : String) :
    List FPath :=
  (game.map (fun f => f.1)).filter (fun p => decide (p.getLast? = some name))

/-- `StellaSoraModLoader._get_backup_path`: the backup lives in the backups
tree under the mod's parent folder, named
`{game_file.name}.backup.{dot-joined intermediate game-relative parts}`.
(The `mkdir` of the parent folder has no observable effect in this model.) -/
def get_backup_path (modRel gameRel : FPath) : FPath :=
  modRel.dropLast ++ [pathName gameRel ++ (".backup.") ++ dotJoin gameRel.dropLast]

/-- The three kinds of `shutil.copy2` call `_apply_mod` makes for one game
file. -/
inductive CopyOp where
  | gameToBackup
  | modToGame
  | backupToGame
deriving DecidableEq, Repr

/-- The body of the `for game_file in game_files` loop of
`StellaSoraModLoader._apply_mod`, at the level of one (mod, game file) pair:
given the mod's bytes, the store's `applied_hash` for the mod, the live game
file's bytes and the bytes of the existing backup (if any), it returns the
resulting game bytes, the resulting backup bytes (`none` = still no backup)
and the sequence of copies performed, in source order.  The branch reading
`backup_hash` performs that (unused) read and falls into the two sub-cases
exactly as the source does. -/
def apply_file_step (sha256 : Content → String) (modC : Content)
    (applied_hash : String) (gameC : Content) (backupC : Option Content) :
    Content × Option Content × List CopyOp :=
  let mod_hash := sha256 modC
  let game_hash := sha256 gameC
  if mod_hash = game_hash then
    (gameC, backupC, [])
  else
    match backupC with
    | none =>
      (modC, some gameC, [CopyOp.gameToBackup, CopyOp.modToGame])
    | some b =>
      if game_hash = applied_hash ∧ applied_hash ≠ "" then
        let game1 := b
        let backup1 := game1
        (modC, some backup1, [CopyOp.backupToGame, CopyOp.gameToBackup, CopyOp.modToGame])
      else
        (modC, some gameC, [CopyOp.gameToBackup, CopyOp.modToGame])

/-- One iteration of the `_apply_mod` loop acting on the game and backup
trees: read the live game file, locate the backup slot, run
`apply_file_step`, write the results back.  A vanished game file would raise
in the source; the `none` branch is unreachable because the loop only visits
paths returned by `find_original_files`. -/
def apply_file (sha256 : Content → String) (modRel : FPath) (modC : Content)
    (applied_hash : String) (s : List (FPath × Content) × List (FPath × Content))
    (gf : FPath) : List (FPath × Content) × List (FPath × Content) :=
  match fsLookup s.1 gf with
  | none => s
  | some gameC =>
    let bp := get_backup_path modRel gf
    let r := apply_file_step sha256 modC applied_hash gameC (fsLookup s.2 bp)
    (fsWrite s.1 gf r.1,
     match r.2.1 with
     | some c => fsWrite s.2 bp c
     | none => s.2)

/-- The full `for game_file in game_files` loop of `_apply_mod`. -/
def apply_files (sha256 : Content → String) (modRel : FPath) (modC : Content)
    (applied_hash : String) :
    List FPath → List (FPath × Content) × List (FPath × Content) →
    List (FPath × Content) × List (FPath × Content)
  | [], s => s
  | gf :: rest, s =>
    apply_files sha256 modRel modC applied_hash rest
      (apply_file sha256 modRel modC applied_hash s gf)

/-- `StellaSoraModLoader._apply_mod`: look up the store's `applied_hash`,
find the matching game files, fail (returning `false`, state untouched) when
there are none, otherwise run the loop and record `applied_hash := mod_hash`.
`modC` is the mod file's bytes on disk. -/
def _apply_mod (sha256 : Content → String) (modRel : FPath) (modC : Content)
    (st : LoaderState) : LoaderState × Bool :=
  let mod_hash := sha256 modC
  let applied_hash :=
    match get_entry st.status.data modRel with
    | some e => e.applied_hash
    | none => ""
  let game_files := find_original_files st.game (pathName modRel)
  if game_files = [] then (st, false)
  else
    let s := apply_files sha256 modRel modC applied_hash game_files (st.game, st.backups)
    (⟨s.1, s.2, set_applied_hash st.status modRel mod_hash⟩, true)

/-- One iteration of the `_unapply_mod` loop: when a backup exists for the
pair, copy it onto the game file and delete it; otherwise log-and-skip. -/
def unapply_file (modRel : FPath)
    (s : List (FPath × Content) × List (FPath × Content)) (gf : FPath) :
    List (FPath × Content) × List (FPath × Content) :=
  let bp := get_backup_path modRel gf
  match fsLookup s.2 bp with
  | some bc => (fsWrite s.1 gf bc, fsErase s.2 bp)
  | none => s

/-- The `for game_file in game_files` loop of `_unapply_mod`. -/
def unapply_files (modRel : FPath) :
    List FPath → List (FPath × Content) × List (FPath × Content) →
    List (FPath × Content) × List (FPath × Content)
  | [], s => s
  | gf :: rest, s => unapply_files modRel rest (unapply_file modRel s gf)

/-- `StellaSoraModLoader._unapply_mod`: restore every matching game file from
its backup (when present) and clear the store's `applied_hash`. -/
def _unapply_mod (modRel : FPath) (st : LoaderState) : LoaderState :=
  let game_files := find_original_files st.game (pathName modRel)
  let s := unapply_files modRel game_files (st.game, st.backups)
  ⟨s.1, s.2, set_applied_hash st.status modRel ("")⟩

/-- `StellaSoraModLoader.toggle_mod`: when enabling, first make sure a status
entry exists (created disabled), then apply; when disabling, unapply (always
counted as success).  The new `enabled` flag is persisted only on success. -/
def toggle_mod (sha256 : Content → String) (modRel : FPath) (modC : Content)
    (st : LoaderState) (enable : Bool) : LoaderState × Bool :=
  let st0 :=
    if enable then
      match get_entry st.status.data modRel with
      | none => { st with status := set_status sha256 modC st.status modRel false }
      | some _ => st
    else st
  let r :=
    if enable then _apply_mod sha256 modRel modC st0
    else (_unapply_mod modRel st0, true)
  if r.2 then
    ({ r.1 with status := set_status sha256 modC r.1.status modRel enable }, r.2)
  else r

/-! ## `StellaSoraModLoader.restore_backup_file`

The restore sweep needs a notion of existing game *directories* for the
`target_path.parent.exists()` check, so it gets its own state record.
`gameDirs` is the set of directories currently present under the game
resource root (the root itself is the empty path `[]`). -/

structure RestoreState where
  game : List (FPath × Content)
  gameDirs : List FPath
  backups : List (FPath × Content)
  log : List String
deriving DecidableEq, Repr

/-- The filename-parsing prelude of `restore_backup_file` (strip a legacy
leading dot, split on `".backup."`, require exactly two pieces, split the
suffix on dots dropping empty parts): `some (relative_parts, original_name)`
on success, `none` when the name is malformed. -/
def parse_backup_name (name : String) : Option (List String × String) :=
  let backup_name := if strStartsWith name (".") then ⟨name.data.drop 1⟩ else name
  match pySplit backup_name (".backup.") with
  | [original_name, path_suffix] =>
    some ((pySplit path_suffix (".")).filter (fun part => decide (part ≠ "")), original_name)
  | _ => none

/-- `StellaSoraModLoader.restore_backup_file`: reconstruct the game path from
the backup's filename; if the name is malformed, fall through silently; if
the target file exists or its parent directory exists, copy the backup onto
the target, delete the backup and log one line; otherwise fall through
silently.  The backup's bytes are looked up in the backup tree (the sweep
only visits existing files). -/
def restore_backup_file (st : RestoreState) (backup : FPath) : RestoreState :=
  match fsLookup st.backups backup with
  | none => st
  | some bc =>
    match parse_backup_name (pathName backup) with
    | none => st
    | some (relative_parts, original_name) =>
      let target := relative_parts ++ [original_name]
      if (fsLookup st.game target).isSome || decide (relative_parts ∈ st.gameDirs) then
        { st with
          game := fsWrite st.game target bc,
          backups := fsErase st.backups backup,
          log := st.log ++ [("  - Restored ") ++ original_name ++ (" (")
            ++ target.headD ("") ++ (")")] }
      else st

/-! ## `ModsStatusManager.load`

`load` opens the side-car with `encoding='utf-8'` and runs `json.load`,
catching `(json.JSONDecodeError, IOError)`.  The observable outcomes of the
read-and-parse step in CPython are enumerated by `LoadOutcome`; note that a
file whose raw bytes are not valid UTF-8 makes the decoding inside
`json.load` raise `UnicodeDecodeError`, which is a `ValueError` but neither a
`json.JSONDecodeError` nor an `IOError` (= `OSError`), so the except clause
does not catch it. -/

inductive PyExc where
  | ioError
  | unicodeDecodeError
  | jsonDecodeError
deriving DecidableEq, Repr

inductive LoadOutcome where
  /-- `self.status_file.exists()` is false. -/
  | missing
  /-- opening or reading raises an `OSError` (= `IOError`): caught. -/
  | osReadError
  /-- the bytes are not valid UTF-8: `UnicodeDecodeError`, not caught. -/
  | undecodable
  /-- the text is not valid JSON: `json.JSONDecodeError`, caught. -/
  | malformedJson
  /-- the file parses as a JSON array of mod records. -/
  | parsed (data : List ModStatusEntry)
deriving DecidableEq

/-- `ModsStatusManager.load`: the resulting `_status_data`, or the exception
that escapes to the caller. -/
def load (o : LoadOutcome) : Except PyExc (List ModStatusEntry) :=
  match o with
  | LoadOutcome.missing => Except.ok []
  | LoadOutcome.osReadError => Except.ok []
  | LoadOutcome.undecodable => Except.error PyExc.unicodeDecodeError
  | LoadOutcome.malformedJson => Except.ok []
  | LoadOutcome.parsed d => Except.ok d

/-! ## `verify_enabled_mods` with explicit I/O failure

The batch claims are about exceptions, so the verify pass is embedded a
second time with fallible reads: a file whose stored value is `none` exists
but raises `IOError` when read (locked / permission denied), and reads of
missing paths also raise.  `copy2` reads its source; writes are assumed to
succeed (write failures are not needed for the claims).  `FState` adds the
mods tree and the log so that "which mods were still processed" is
observable. -/

structure FState where
  mods : List (FPath × Option Content)
  game : List (FPath × Option Content)
  backups : List (FPath × Option Content)
  status : StoreState
  log : List String
deriving DecidableEq, Repr

/-- Reading a file's bytes (`Path.read_bytes`), raising `IOError` when the
file is missing or unreadable. -/
def read_bytes (fs : List (FPath × Option Content)) (p : FPath) :
    Except PyExc Content :=
  match fsLookup fs p with
  | some (some c) => Except.ok c
  | some none => Except.error PyExc.ioError
  | none => Except.error PyExc.ioError

/-- `find_original_files` over the fallible game tree (`rglob` lists paths
without reading them). -/
def find_original_filesF (game : List (FPath × Option Content)) (name : String) :
    List FPath :=
  (game.map (fun f => f.1)).filter (fun p => decide (p.getLast? = some name))

/-- Relative paths are rendered POSIX-style in log lines. -/
def joinPosix (p : FPath) : String :=
  String.intercalate ("/") p

/-- The inner loop of `verify_enabled_mods` computing `needs_reapply`:
skip vanished files, hash the rest, stop at the first mismatch.  Any read
error propagates. -/
def scan_mismatch (sha256 : Content → String) (mod_hash : String)
    (game : List (FPath × Option Content)) : List FPath → Except PyExc Bool
  | [] => Except.ok false
  | gf :: rest =>
    match fsLookup game gf with
    | none => scan_mismatch sha256 mod_hash game rest
    | some none => Except.error PyExc.ioError
    | some (some gc) =>
      if sha256 gc ≠ mod_hash then Except.ok true
      else scan_mismatch sha256 mod_hash game rest

/-- The `_apply_mod` loop with fallible reads (same decision structure as
`apply_file` / `apply_file_step`; the read of `backup_hash` is performed even
though its value is unused, so an unreadable backup raises here too).
Returns the state as mutated so far and the exception, if one aborted the
loop. -/
def apply_loopF (sha256 : Content → String) (modRel : FPath) (modC : Content)
    (applied_hash : String) : List FPath → FState → FState × Option PyExc
  | [], st => (st, none)
  | gf :: rest, st =>
    match read_bytes st.game gf with
    | Except.error e => (st, some e)
    | Except.ok gameC =>
      let mod_hash := sha256 modC
      let game_hash := sha256 gameC
      let bp := get_backup_path modRel gf
      if mod_hash = game_hash then
        apply_loopF sha256 modRel modC applied_hash rest
          { st with log := st.log ++ [("  - ") ++ pathName gf ++ (": already applied")] }
      else
        match fsLookup st.backups bp with
        | none =>
          apply_loopF sha256 modRel modC applied_hash rest
            { st with
              backups := fsWrite st.backups bp (some gameC),
              game := fsWrite st.game gf (some modC),
              log := st.log ++ [("  - ") ++ pathName gf ++ (": backed up & applied")] }
        | some backupFile =>
          match backupFile with
          | none => (st, some PyExc.ioError)
          | some backupC =>
            if game_hash = applied_hash ∧ applied_hash ≠ "" then
              apply_loopF sha256 modRel modC applied_hash rest
                { st with
                  game := fsWrite st.game gf (some modC),
                  backups := fsWrite st.backups bp (some backupC),
                  log := st.log ++ [("  - ") ++ pathName gf ++ (": restored old file"),
                    ("  - ") ++ pathName gf ++ (": applied new mod")] }
            else
              apply_loopF sha256 modRel modC applied_hash rest
                { st with
                  backups := fsWrite st.backups bp (some gameC),
                  game := fsWrite st.game gf (some modC),
                  log := st.log ++ [("  - ") ++ pathName gf ++ (": re-backed up & applied")] }

/-- `_apply_mod` with fallible reads. -/
def _apply_modE (sha256 : Content → String) (modRel : FPath) (st : FState) :
    FState × Except PyExc Bool :=
  match read_bytes st.mods modRel with
  | Except.error e => (st, Except.error e)
  | Except.ok modC =>
    let applied_hash :=
      match get_entry st.status.data modRel with
      | some e => e.applied_hash
      | none => ""
    let game_files := find_original_filesF st.game (pathName modRel)
    if game_files = [] then
      ({ st with log := st.log ++ [("No game files found for `") ++ pathName modRel
          ++ ("`. This file name is correct?")] }, Except.ok false)
    else
      let st1 := { st with log := st.log ++ [("Applying ") ++ joinPosix modRel] }
      match apply_loopF sha256 modRel modC applied_hash game_files st1 with
      | (st2, some e) => (st2, Except.error e)
      | (st2, none) =>
        ({ st2 with status := set_applied_hash st2.status modRel (sha256 modC) },
         Except.ok true)

/-- The `for mod_path in enabled_mods` loop of `verify_enabled_mods`: hash the
mod, scan its game files, re-apply on mismatch, log `Verified:` otherwise.
There is no per-mod exception handling: the first raised `IOError` aborts the
whole loop. -/
def verify_loop (sha256 : Content → String) :
    List FPath → FState → FState × Option PyExc
  | [], st => (st, none)
  | mp :: rest, st =>
    match read_bytes st.mods mp with
    | Except.error e => (st, some e)
    | Except.ok modC =>
      let mod_hash := sha256 modC
      let game_files := find_original_filesF st.game (pathName mp)
      match scan_mismatch sha256 mod_hash st.game game_files with
      | Except.error e => (st, some e)
      | Except.ok needs_reapply =>
        if needs_reapply then
          let st1 := { st with log := st.log ++ [("Applying ") ++ joinPosix mp ++ ("...")] }
          match _apply_modE sha256 mp st1 with
          | (st2, Except.error e) => (st2, some e)
          | (st2, Except.ok _) => verify_loop sha256 rest st2
        else
          verify_loop sha256 rest
            { st with log := st.log ++ [("Verified: ") ++ joinPosix mp] }

/-- `StellaSoraModLoader.verify_enabled_mods`: list the mod files
(`get_mods_list` keeps names matching `*{ext}` that do not start with a dot),
keep the enabled ones, and run the loop. -/
def verify_enabled_mods (sha256 : Content → String) (ext : String) (st : FState) :
    FState × Option PyExc :=
  let mods := (st.mods.map (fun f => f.1)).filter
    (fun p => strEndsWith (pathName p) ext && !(strStartsWith (pathName p) (".")))
  let enabled_mods := mods.filter (fun p => get_status st.status.data p)
  if enabled_mods = [] then
    ({ st with log := st.log ++ [("No enabled mods to verify.")] }, none)
  else
    verify_loop sha256 enabled_mods
      { st with log := st.log ++ [("Verifying enabled mods...")] }

/-! ## Spec-side definitions and witness scaffolding -/

/-- The spec's three-way decision table for apply (§4.4), written from the
spec's words, to be compared with the engine's `apply_file_step`:
already applied → nothing; no backup → back up then overlay; backup present
and the game still holds the previously applied version → restore, re-backup,
overlay; backup present otherwise → re-backup then overlay. -/
def spec_apply_decision (alreadyApplied backupExists gameHoldsApplied : Bool) :
    List CopyOp :=
  if alreadyApplied then []
  else if !backupExists then [CopyOp.gameToBackup, CopyOp.modToGame]
  else if gameHoldsApplied then
    [CopyOp.backupToGame, CopyOp.gameToBackup, CopyOp.modToGame]
  else [CopyOp.gameToBackup, CopyOp.modToGame]

/-- A concrete injective stand-in for the SHA-256 hex digest, used by
witnesses; like a real hex digest it is never the empty string. -/
def fingerprint (c : Content) : String :=
  ⟨'h' :: List.replicate c 'x'⟩

/-- Witness mods tree for the sync claim: one tracked file (content changed),
one new file. -/
def syncWitnessMods : List (FPath × Content) :=
  [([("A"), ("m1.unity3d")], 5), ([("B"), ("m2.unity3d")], 6)]

/-- Witness store for the sync claim: one tracked entry and one enabled entry
whose file vanished. -/
def syncWitnessStore : StoreState :=
  ⟨[⟨[("A"), ("m1.unity3d")], ("old"), ("ah"), true⟩,
    ⟨[("gone.unity3d")], ("g"), (""), true⟩], false⟩

/-- A loader state with two fresh same-named game files whose backup slots
collide: `A.B/x.unity3d` and `A/B/x.unity3d` both map to the single backup
file `x.unity3d.backup.A.B`, because the dot-joined folder encoding is not
injective. -/
def collisionState : LoaderState :=
  ⟨[([("A.B"), ("x.unity3d")], 1), ([("A"), ("B"), ("x.unity3d")], 2)],
   [], ⟨[], false⟩⟩

/-- A loader state where an older mod version (fingerprint of `5`) is
recorded as applied, the backup holds the original bytes `1`, and the game
file was mutated externally to bytes `7` — which happen to equal the mod
file's current content. -/
def mutatedGameState : LoaderState :=
  ⟨[([("A"), ("x.unity3d")], 7)],
   [([("M"), ("x.unity3d.backup.A")], 1)],
   ⟨[⟨[("M"), ("x.unity3d")], fingerprint 7, fingerprint 5, true⟩], false⟩⟩

/-- Witness state for the batch-abort counterexample: two enabled mods, the
first unreadable, the second perfectly applied. -/
def verifyAbortState : FState :=
  { mods := [([("a.unity3d")], none), ([("b.unity3d")], some 2)],
    game := [([("g"), ("a.unity3d")], some 1), ([("g"), ("b.unity3d")], some 2)],
    backups := [],
    status := ⟨[⟨[("a.unity3d")], ("ha"), (""), true⟩,
                ⟨[("b.unity3d")], ("hb"), (""), true⟩], false⟩,
    log := [] }

/-! # Theorems -/

/-- Sanity checks that the character-level string operations behave like
their Python counterparts on the encodings this program uses. -/
theorem string_ops_behave_like_python :
    pySplit ("a.backup.Chitose.Sub") (".backup.") = [("a"), ("Chitose.Sub")]
    ∧ pySplit ("foo.unity3d") (".backup.") = [("foo.unity3d")]
    ∧ pySplit ("Chitose.Sub") (".") = [("Chitose"), ("Sub")]
    ∧ pySplit ("x.backup.") (".backup.") = [("x"), ("")]
    ∧ pySplit ("a.backup.b.backup.c") (".backup.") = [("a"), ("b"), ("c")]
    ∧ dotJoin [("A"), ("B")] = ("A.B")
    ∧ strEndsWith ("foo.unity3d") (".unity3d") = true
    ∧ strStartsWith (".hidden") (".") = true
    ∧ pathName [("A"), ("foo")] = ("foo") := by
  refine ⟨?_, ?_, ?_, ?_, ?_, ?_, ?_, ?_, ?_⟩ <;> decide

/-! ## Association-list lemmas -/

theorem fsLookup_fsWrite_self {α : Type} (l : List (FPath × α)) (k : FPath) (v : α) :
    fsLookup (fsWrite l k v) k = some v := by
  induction l with
  | nil => simp [fsWrite, fsLookup]
  | cons hd tl ih =>
    obtain ⟨q, d⟩ := hd
    by_cases h : q = k <;> simp [fsWrite, fsLookup, h, ih]

theorem fsLookup_fsWrite_ne {α : Type} (l : List (FPath × α)) {k q : FPath} (v : α)
    (h : k ≠ q) : fsLookup (fsWrite l k v) q = fsLookup l q := by
  induction l with
  | nil => simp [fsWrite, fsLookup, h]
  | cons hd tl ih =>
    obtain ⟨r, d⟩ := hd
    by_cases hr : r = k
    · subst hr
      simp [fsWrite, fsLookup, h]
    · simp [fsWrite, fsLookup, hr, ih]

theorem fsWrite_eq_of_lookup {α : Type} {l : List (FPath × α)} {k : FPath} {v : α}
    (h : fsLookup l k = some v) : fsWrite l k v = l := by
  induction l with
  | nil => simp [fsLookup] at h
  | cons hd tl ih =>
    obtain ⟨q, d⟩ := hd
    by_cases hq : q = k
    · subst hq
      simp [fsLookup] at h
      simp [fsWrite, h]
    · simp [fsLookup, hq] at h
      simp [fsWrite, hq, ih h]

theorem fsLookup_eq_none_iff {α : Type} [Nonempty α] (l : List (FPath × α)) (k : FPath) :
    fsLookup l k = none ↔ k ∉ l.map Prod.fst := by
  induction l with
  | nil => simp [fsLookup]
  | cons hd tl ih =>
    obtain ⟨q, d⟩ := hd
    by_cases hq : q = k
    · subst hq
      simp [fsLookup]
    · have hq2 : ¬ k = q := fun h => hq h.symm
      simp [fsLookup, hq, ih, List.mem_cons, hq2]

theorem fsLookup_isSome_iff {α : Type} [Nonempty α] (l : List (FPath × α)) (k : FPath) :
    (fsLookup l k).isSome ↔ k ∈ l.map Prod.fst := by
  constructor
  · intro h
    by_contra hmem
    rw [← fsLookup_eq_none_iff] at hmem
    rw [hmem] at h
    simp at h
  · intro h
    rcases hl : fsLookup l k with _ | v
    · rw [fsLookup_eq_none_iff] at hl
      exact absurd h hl
    · rfl

theorem fsErase_sublist {α : Type} (l : List (FPath × α)) (k : FPath) :
    List.Sublist (fsErase l k) l := by
  induction l with
  | nil => simp [fsErase]
  | cons hd tl ih =>
    obtain ⟨q, d⟩ := hd
    by_cases hq : q = k
    · rw [show fsErase ((q, d) :: tl) k = tl by simp [fsErase, hq]]
      exact List.sublist_cons_self _ _
    · rw [show fsErase ((q, d) :: tl) k = (q, d) :: fsErase tl k by simp [fsErase, hq]]
      exact List.Sublist.cons₂ _ ih

theorem fsLookup_fsErase_self {α : Type} [Nonempty α] {l : List (FPath × α)} (k : FPath)
    (h : (l.map Prod.fst).Nodup) : fsLookup (fsErase l k) k = none := by
  induction l with
  | nil => simp [fsErase, fsLookup]
  | cons hd tl ih =>
    obtain ⟨q, d⟩ := hd
    simp only [List.map_cons, List.nodup_cons] at h
    by_cases hq : q = k
    · subst hq
      rw [fsLookup_eq_none_iff]
      simpa [fsErase] using h.1
    · simp [fsErase, fsLookup, hq, ih h.2]

theorem fsLookup_fsErase_ne {α : Type} (l : List (FPath × α)) {k q : FPath}
    (h : k ≠ q) : fsLookup (fsErase l k) q = fsLookup l q := by
  induction l with
  | nil => simp [fsErase]
  | cons hd tl ih =>
    obtain ⟨r, d⟩ := hd
    by_cases hr : r = k
    · subst hr
      simp [fsErase, fsLookup, h]
    · simp [fsErase, fsLookup, hr, ih]

theorem fsLookup_none_fsErase {α : Type} [Nonempty α] {l : List (FPath × α)} {q : FPath}
    (k : FPath) (h : fsLookup l q = none) : fsLookup (fsErase l k) q = none := by
  rw [fsLookup_eq_none_iff] at h ⊢
  intro hmem
  exact h (List.Sublist.mem hmem ((fsErase_sublist l k).map Prod.fst))

theorem map_fst_fsWrite {α : Type} [Nonempty α] {l : List (FPath × α)} {k : FPath} (v : α)
    (h : (fsLookup l k).isSome) :
    (fsWrite l k v).map Prod.fst = l.map Prod.fst := by
  induction l with
  | nil => simp [fsLookup] at h
  | cons hd tl ih =>
    obtain ⟨q, d⟩ := hd
    by_cases hq : q = k
    · simp [fsWrite, hq]
    · simp only [fsLookup, hq, if_false] at h
      simp [fsWrite, hq, ih h]

theorem map_fst_fsWrite_of_not_mem {α : Type} [Nonempty α] {l : List (FPath × α)} {k : FPath}
    (v : α) (hmem : k ∉ l.map Prod.fst) :
    (fsWrite l k v).map Prod.fst = l.map Prod.fst ++ [k] := by
  induction l with
  | nil => simp [fsWrite]
  | cons hd tl ih =>
    obtain ⟨q, d⟩ := hd
    simp only [List.map_cons, List.mem_cons] at hmem
    push_neg at hmem
    have hq : ¬ q = k := fun h => hmem.1 h.symm
    simp [fsWrite, hq, ih hmem.2]

theorem nodup_map_fst_fsWrite {α : Type} [Nonempty α] {l : List (FPath × α)} (k : FPath) (v : α)
    (h : (l.map Prod.fst).Nodup) : ((fsWrite l k v).map Prod.fst).Nodup := by
  rcases hk : fsLookup l k with _ | w
  · have hmem := (fsLookup_eq_none_iff l k).mp hk
    rw [map_fst_fsWrite_of_not_mem v hmem]
    refine List.Nodup.append h (List.nodup_singleton k) ?_
    intro a ha hb
    rw [List.mem_singleton] at hb
    subst hb
    exact hmem ha
  · rw [map_fst_fsWrite v (by simp [hk])]
    exact h

theorem nodup_map_fst_fsErase {α : Type} {l : List (FPath × α)} (k : FPath)
    (h : (l.map Prod.fst).Nodup) : ((fsErase l k).map Prod.fst).Nodup :=
  h.sublist ((fsErase_sublist l k).map Prod.fst)

theorem mem_map_fst_of_fsLookup {α : Type} [Nonempty α] {l : List (FPath × α)} {k : FPath}
    {v : α} (h : fsLookup l k = some v) : k ∈ l.map Prod.fst := by
  rw [← fsLookup_isSome_iff, h]
  rfl

/-! ## Claim C1: the apply loop body matches the spec's decision table -/

/-- Claim C1: for every (mod file, game file) pair processed by apply, the
copies performed are exactly those prescribed by the spec's three-way hash
decision table: equal hashes → nothing; differing hashes and no backup →
game→backup then mod→game; differing hashes, backup present, game hash equal
to a non-empty applied hash → backup→game, game→backup, mod→game; any other
state with a backup → game→backup then mod→game. -/
theorem apply_matches_decision_table (sha256 : Content → String) (modC : Content)
    (applied_hash : String) (gameC : Content) (backupC : Option Content) :
    (apply_file_step sha256 modC applied_hash gameC backupC).2.2 =
      spec_apply_decision (decide (sha256 modC = sha256 gameC)) backupC.isSome
        (decide (sha256 gameC = applied_hash ∧ applied_hash ≠ "")) := by
  simp only [apply_file_step, spec_apply_decision, Option.isSome_some,
    Option.isSome_none, Bool.not_true, Bool.not_false, decide_eq_true_eq,
    if_true, if_false]
  by_cases h1 : sha256 modC = sha256 gameC
  · cases backupC <;> simp [h1]
  · cases backupC with
    | none => simp [h1]
    | some b =>
      by_cases h2 : sha256 gameC = applied_hash ∧ applied_hash ≠ ""
      · rw [if_neg h1, if_pos h2, if_neg h1]
        simp [h2]
      · rw [if_neg h1, if_neg h2, if_neg h1]
        simp [if_neg h2]

/-! ## Status-store lemmas -/

theorem get_status_set_status_data (sha256 : Content → String) (modC : Content)
    (data : List ModStatusEntry) (p : FPath) (enabled : Bool) :
    get_status (set_status_data sha256 modC data p enabled) p = enabled := by
  induction data with
  | nil => simp [set_status_data, get_status, get_entry]
  | cons e rest ih =>
    by_cases h : e.path = p
    · simp [set_status_data, get_status, get_entry, h]
    · simp only [set_status_data, h, if_false]
      simpa [get_status, get_entry, h] using ih

theorem set_applied_hash_data_none {data : List ModStatusEntry} {p : FPath}
    (ah : String) (h : get_entry data p = none) :
    set_applied_hash_data data p ah = none := by
  induction data with
  | nil => simp [set_applied_hash_data]
  | cons e rest ih =>
    by_cases he : e.path = p
    · simp [get_entry, he] at h
    · simp only [get_entry, he, if_false] at h
      simp [set_applied_hash_data, he, ih h]

theorem set_applied_hash_data_some {data : List ModStatusEntry} {p : FPath}
    {e : ModStatusEntry} (ah : String) (h : get_entry data p = some e) :
    ∃ d, set_applied_hash_data data p ah = some d ∧
      get_entry d p = some { e with applied_hash := ah } := by
  induction data with
  | nil => simp [get_entry] at h
  | cons f rest ih =>
    by_cases hf : f.path = p
    · have he : e = f := by
        simp only [get_entry, hf, if_true, Option.some.injEq] at h
        exact h.symm
      subst he
      refine ⟨{ e with applied_hash := ah } :: rest, ?_, ?_⟩
      · simp [set_applied_hash_data, hf]
      · simp [get_entry, hf]
    · simp only [get_entry, hf, if_false] at h
      obtain ⟨d, hd1, hd2⟩ := ih h
      exact ⟨f :: d, by simp [set_applied_hash_data, hf, hd1],
        by simp [get_entry, hf, hd2]⟩

theorem set_applied_hash_of_absent {st : StoreState} {p : FPath} (ah : String)
    (h : get_entry st.data p = none) : set_applied_hash st p ah = st := by
  simp [set_applied_hash, set_applied_hash_data_none ah h]

theorem get_status_set_applied_hash (st : StoreState) (p q : FPath) (ah : String) :
    get_status (set_applied_hash st p ah).data q = get_status st.data q := by
  rcases hs : set_applied_hash_data st.data p ah with _ | d
  · simp [set_applied_hash, hs]
  · suffices h : ∀ data d, set_applied_hash_data data p ah = some d →
        get_status d q = get_status data q by
      simp [set_applied_hash, hs, h st.data d hs]
    intro data
    induction data with
    | nil => simp [set_applied_hash_data]
    | cons f rest ih =>
      intro d hd
      by_cases hf : f.path = p
      · simp only [set_applied_hash_data, hf, if_true, Option.some.injEq] at hd
        subst hd
        by_cases hq : f.path = q
        · have hpq : p = q := by rw [← hf, hq]
          subst hpq
          simp [get_status, get_entry, hf]
        · have hpq : ¬ p = q := fun h => hq (by rw [hf, h])
          simp [get_status, get_entry, hpq, hq]
      · simp only [set_applied_hash_data, hf, if_false] at hd
        rcases hr : set_applied_hash_data rest p ah with _ | d0
        · rw [hr] at hd
          simp at hd
        · rw [hr] at hd
          simp only [Option.map_some', Option.some.injEq] at hd
          subst hd
          by_cases hq : f.path = q
          · simp [get_status, get_entry, hq]
          · have e1 : get_status (f :: d0) q = get_status d0 q := by
              simp [get_status, get_entry, hq]
            have e2 : get_status (f :: rest) q = get_status rest q := by
              simp [get_status, get_entry, hq]
            rw [e1, e2]
            exact ih d0 hr

/-- `_apply_mod` either fails leaving the state untouched (no matching game
files) or reports success. -/
theorem _apply_mod_cases (sha256 : Content → String) (modRel : FPath)
    (modC : Content) (st : LoaderState) :
    _apply_mod sha256 modRel modC st = (st, false) ∨
      (_apply_mod sha256 modRel modC st).2 = true := by
  by_cases h : find_original_files st.game (pathName modRel) = []
  · left
    simp [_apply_mod, h]
  · right
    simp [_apply_mod, h]

/-! ## Claim C4: toggle persists the enabled flag iff the operation succeeded -/

/-- Claim C4: `toggle_mod` persists the new enabled flag exactly when the
underlying file operation succeeded.  Enabling stores `enabled = true` only
when `_apply_mod` returned success (for a mod not already marked enabled, the
stored flag afterwards equals the returned success bit), and disabling always
returns success and stores `enabled = false`, so the store never comes to
claim `enabled = true` for a mod whose apply failed. -/
theorem toggle_mod_persists_iff_success (sha256 : Content → String)
    (modRel : FPath) (modC : Content) (st : LoaderState)
    (hpre : ∀ e, get_entry st.status.data modRel = some e → e.enabled = false) :
    (get_status (toggle_mod sha256 modRel modC st true).1.status.data modRel
        = (toggle_mod sha256 modRel modC st true).2)
    ∧ (toggle_mod sha256 modRel modC st false).2 = true
    ∧ get_status (toggle_mod sha256 modRel modC st false).1.status.data modRel
        = false := by
  refine ⟨?_, ?_, ?_⟩
  · unfold toggle_mod
    cases hge : get_entry st.status.data modRel with
    | none =>
      simp only [hge, if_true]
      rcases _apply_mod_cases sha256 modRel modC
          { st with status := set_status sha256 modC st.status modRel false } with h | h
      · rw [h]
        simp [get_status_set_status_data, set_status]
      · rcases ha : _apply_mod sha256 modRel modC
            { st with status := set_status sha256 modC st.status modRel false } with ⟨st1, ok⟩
        rw [ha] at h
        simp at h
        subst h
        simp [get_status_set_status_data, set_status]
    | some e =>
      simp only [hge, if_true]
      rcases _apply_mod_cases sha256 modRel modC st with h | h
      · rw [h]
        simp only [Bool.false_eq_true, if_false]
        rw [get_status, hge]
        exact hpre e hge
      · rcases ha : _apply_mod sha256 modRel modC st with ⟨st1, ok⟩
        rw [ha] at h
        simp at h
        subst h
        simp [get_status_set_status_data, set_status]
  · simp [toggle_mod]
  · simp [toggle_mod, get_status_set_status_data, set_status]

/-- Witness for C4 at a concrete state: one matching game file, a tracked
disabled mod; enabling succeeds and stores `true`; disabling stores `false`. -/
theorem toggle_mod_persists_iff_success_witness :
    (get_status (toggle_mod fingerprint [("M"), ("foo.unity3d")] 7
        ⟨[([("A"), ("foo.unity3d")], 5)], [],
         ⟨[⟨[("M"), ("foo.unity3d")], ("h0"), (""), false⟩], false⟩⟩ true).1.status.data
        [("M"), ("foo.unity3d")]
      = (toggle_mod fingerprint [("M"), ("foo.unity3d")] 7
        ⟨[([("A"), ("foo.unity3d")], 5)], [],
         ⟨[⟨[("M"), ("foo.unity3d")], ("h0"), (""), false⟩], false⟩⟩ true).2)
    ∧ (toggle_mod fingerprint [("M"), ("foo.unity3d")] 7
        ⟨[([("A"), ("foo.unity3d")], 5)], [],
         ⟨[⟨[("M"), ("foo.unity3d")], ("h0"), (""), false⟩], false⟩⟩ false).2 = true
    ∧ get_status (toggle_mod fingerprint [("M"), ("foo.unity3d")] 7
        ⟨[([("A"), ("foo.unity3d")], 5)], [],
         ⟨[⟨[("M"), ("foo.unity3d")], ("h0"), (""), false⟩], false⟩⟩ false).1.status.data
        [("M"), ("foo.unity3d")] = false :=
  toggle_mod_persists_iff_success fingerprint [("M"), ("foo.unity3d")] 7
    ⟨[([("A"), ("foo.unity3d")], 5)], [],
     ⟨[⟨[("M"), ("foo.unity3d")], ("h0"), (""), false⟩], false⟩⟩
    (by decide)

/-! ## Claim C7 (corrected): load on a missing or corrupt side-car -/

/-- Counterexample to C7 as stated: a side-car whose raw bytes are not valid
UTF-8 is corrupt content, yet `load` does not return an empty store — the
`UnicodeDecodeError` raised while decoding inside `json.load` is neither a
`json.JSONDecodeError` nor an `IOError`, so it escapes the except clause and
propagates to the caller. -/
theorem load_undecodable_propagates :
    load LoadOutcome.undecodable = Except.error PyExc.unicodeDecodeError := rfl

/-- Claim C7 as amended: a missing side-car, a side-car whose read raises
`IOError`, and a side-car whose text is not valid JSON all yield an empty
store with no exception; a parseable side-car yields its records; only
content that fails UTF-8 decoding escapes as an exception. -/
theorem load_missing_or_caught_corrupt :
    load LoadOutcome.missing = Except.ok []
    ∧ load LoadOutcome.osReadError = Except.ok []
    ∧ load LoadOutcome.malformedJson = Except.ok []
    ∧ ∀ d, load (LoadOutcome.parsed d) = Except.ok d :=
  ⟨rfl, rfl, rfl, fun _ => rfl⟩

/-! ## Claim C8 (corrected): set_applied_hash does not create absent records -/

/-- Counterexample to C8 as stated: on a store with no record at all,
`set_applied_hash` creates nothing and does not mark the store dirty — the
loop falls through without touching anything, unlike `set_status`. -/
theorem set_applied_hash_absent_is_noop :
    set_applied_hash ⟨[], false⟩ [("M"), ("foo.unity3d")] ("abc")
      = ⟨[], false⟩ := rfl

/-- Claim C8 as amended: `set_status` creates absent records on demand
(content hash computed from the file's bytes, `applied_hash` empty) and marks
the store dirty, but `set_applied_hash` updates only existing records: on an
absent path it neither creates a record nor marks the store dirty (which is
why `toggle_mod` pre-creates the entry before applying); on a present path it
updates `applied_hash` and marks the store dirty. -/
theorem set_applied_hash_vs_set_status (sha256 : Content → String)
    (st : StoreState) (p : FPath) (ah : String) (modC : Content) (en : Bool) :
    (get_entry st.data p = none → set_applied_hash st p ah = st)
    ∧ (get_entry st.data p = none →
        set_status sha256 modC st p en = ⟨st.data ++ [⟨p, sha256 modC, "", en⟩], true⟩)
    ∧ (∀ e, get_entry st.data p = some e →
        (set_applied_hash st p ah).dirty = true ∧
        get_entry (set_applied_hash st p ah).data p
          = some { e with applied_hash := ah }) := by
  refine ⟨fun h => set_applied_hash_of_absent ah h, fun h => ?_, fun e h => ?_⟩
  · suffices hs : ∀ data, get_entry data p = none →
        set_status_data sha256 modC data p en = data ++ [⟨p, sha256 modC, "", en⟩] by
      simp [set_status, hs st.data h]
    intro data
    induction data with
    | nil => simp [set_status_data]
    | cons f rest ih =>
      intro hn
      by_cases hf : f.path = p
      · simp [get_entry, hf] at hn
      · simp only [get_entry, hf, if_false] at hn
        simp [set_status_data, hf, ih hn]
  · obtain ⟨d, hd1, hd2⟩ := set_applied_hash_data_some ah h
    simp [set_applied_hash, hd1, hd2]

/-- Witness for C8's amended claim: a concrete one-record store, exercising
the absent-path no-op, the absent-path creation by `set_status`, and the
present-path update. -/
theorem set_applied_hash_vs_set_status_witness :
    (set_applied_hash ⟨[⟨[("a")], ("h1"), (""), true⟩], false⟩ [("b")] ("x")
      = ⟨[⟨[("a")], ("h1"), (""), true⟩], false⟩)
    ∧ (set_status fingerprint 3 ⟨[⟨[("a")], ("h1"), (""), true⟩], false⟩ [("b")] true
      = ⟨[⟨[("a")], ("h1"), (""), true⟩, ⟨[("b")], fingerprint 3, (""), true⟩], true⟩)
    ∧ ((set_applied_hash ⟨[⟨[("a")], ("h1"), (""), true⟩], false⟩ [("a")] ("x")).dirty
        = true ∧
      get_entry (set_applied_hash ⟨[⟨[("a")], ("h1"), (""), true⟩], false⟩
          [("a")] ("x")).data [("a")]
        = some ⟨[("a")], ("h1"), ("x"), true⟩) := by
  have h1 := (set_applied_hash_vs_set_status fingerprint
    ⟨[⟨[("a")], ("h1"), (""), true⟩], false⟩ [("b")] ("x") 3 true).1 (by decide)
  have h2 := (set_applied_hash_vs_set_status fingerprint
    ⟨[⟨[("a")], ("h1"), (""), true⟩], false⟩ [("b")] ("x") 3 true).2.1 (by decide)
  have h3 := (set_applied_hash_vs_set_status fingerprint
    ⟨[⟨[("a")], ("h1"), (""), true⟩], false⟩ [("a")] ("x") 3 true).2.2
    ⟨[("a")], ("h1"), (""), true⟩ (by decide)
  exact ⟨h1, h2, h3⟩

/-! ## Claim C9 (corrected): restore of a malformed backup filename -/

/-- Counterexample to C9 as stated: sweeping a backup file whose name has no
`".backup."` marker is a no-op, but it emits no logged message at all — the
parse failure path is a bare `return` with no call to the logger, so the log
stays empty where the claim requires a message. -/
theorem restore_malformed_is_silent :
    restore_backup_file
      ⟨[([("g"), ("foo.unity3d")], 1)], [[]], [([("sub"), ("foo.unity3d")], 3)], []⟩
      [("sub"), ("foo.unity3d")]
    = ⟨[([("g"), ("foo.unity3d")], 1)], [[]], [([("sub"), ("foo.unity3d")], 3)], []⟩ := by
  decide

/-- Claim C9 as amended: for every backup file whose filename does not parse
under the `{name}.backup.{dot-joined parts}` encoding, the restore operation
is a completely silent no-op — no exception, no file copied or deleted, and
no log message emitted (the state, including the log, is returned
unchanged). -/
theorem restore_malformed_noop (st : RestoreState) (bp : FPath)
    (h : parse_backup_name (pathName bp) = none) :
    restore_backup_file st bp = st := by
  rcases hb : fsLookup st.backups bp with _ | bc
  · simp [restore_backup_file, hb]
  · simp [restore_backup_file, hb, h]

/-- Witness for C9's amended claim at a concrete malformed backup name. -/
theorem restore_malformed_noop_witness :
    restore_backup_file ⟨[], [[]], [([("x.unity3d")], 9)], [("prior")]⟩ [("x.unity3d")]
      = ⟨[], [[]], [([("x.unity3d")], 9)], [("prior")]⟩ :=
  restore_malformed_noop ⟨[], [[]], [([("x.unity3d")], 9)], [("prior")]⟩
    [("x.unity3d")] (by decide)

/-! ## Claim C10: restore deletes the backup only after copying it -/

/-- Claim C10: for every backup file processed by `restore_backup_file`,
whenever the copy is refused — the filename fails to parse, or neither the
reconstructed target file nor its parent directory exists — the whole state
(backup tree, game tree, log) is left unchanged; and whenever the backup tree
did change, the change is exactly the deletion of the processed backup, and
the reconstructed game path then holds the backup's bytes (the copy happened
before the delete). -/
theorem restore_delete_only_after_copy (st : RestoreState) (bp : FPath) :
    ((parse_backup_name (pathName bp) = none ∨
      (∀ rel orig, parse_backup_name (pathName bp) = some (rel, orig) →
        fsLookup st.game (rel ++ [orig]) = none ∧ rel ∉ st.gameDirs)) →
      restore_backup_file st bp = st)
    ∧ ((restore_backup_file st bp).backups ≠ st.backups →
        ∃ bc rel orig, fsLookup st.backups bp = some bc ∧
          parse_backup_name (pathName bp) = some (rel, orig) ∧
          (restore_backup_file st bp).backups = fsErase st.backups bp ∧
          fsLookup (restore_backup_file st bp).game (rel ++ [orig]) = some bc) := by
  constructor
  · intro h
    rcases hb : fsLookup st.backups bp with _ | bc
    · simp [restore_backup_file, hb]
    · rcases hp : parse_backup_name (pathName bp) with _ | pr
      · simp [restore_backup_file, hb, hp]
      · obtain ⟨rel, orig⟩ := pr
        rcases h with h | h
        · rw [hp] at h
          cases h
        · obtain ⟨hg, hd⟩ := h rel orig hp
          simp [restore_backup_file, hb, hp, hg, hd]
  · intro h
    rcases hb : fsLookup st.backups bp with _ | bc
    · exact absurd (by simp [restore_backup_file, hb]) h
    · rcases hp : parse_backup_name (pathName bp) with _ | pr
      · exact absurd (by simp [restore_backup_file, hb, hp]) h
      · obtain ⟨rel, orig⟩ := pr
        by_cases hc : ((fsLookup st.game (rel ++ [orig])).isSome
            || decide (rel ∈ st.gameDirs)) = true
        · refine ⟨bc, rel, orig, rfl, rfl, ?_, ?_⟩
          · simp [restore_backup_file, hb, hp, hc]
          · simp [restore_backup_file, hb, hp, hc, fsLookup_fsWrite_self]
        · exact absurd (by simp [restore_backup_file, hb, hp, hc]) h

/-- Witness for C10 at concrete inputs: a parseable backup whose target
directory is missing is refused and the state is unchanged; a parseable
backup whose target directory exists is copied onto the target and erased. -/
theorem restore_delete_only_after_copy_witness :
    (restore_backup_file ⟨[], [[]], [([("x.unity3d.backup.Nope")], 5)], []⟩
      [("x.unity3d.backup.Nope")] = ⟨[], [[]], [([("x.unity3d.backup.Nope")], 5)], []⟩)
    ∧ (∃ bc rel orig,
        fsLookup (⟨[], [[], [("A")]], [([("x.unity3d.backup.A")], 5)], []⟩ :
          RestoreState).backups [("x.unity3d.backup.A")] = some bc ∧
        parse_backup_name (pathName [("x.unity3d.backup.A")]) = some (rel, orig) ∧
        (restore_backup_file ⟨[], [[], [("A")]], [([("x.unity3d.backup.A")], 5)], []⟩
          [("x.unity3d.backup.A")]).backups
          = fsErase [([("x.unity3d.backup.A")], 5)] [("x.unity3d.backup.A")] ∧
        fsLookup (restore_backup_file ⟨[], [[], [("A")]], [([("x.unity3d.backup.A")], 5)], []⟩
          [("x.unity3d.backup.A")]).game (rel ++ [orig]) = some bc) := by
  constructor
  · refine (restore_delete_only_after_copy
      ⟨[], [[]], [([("x.unity3d.backup.Nope")], 5)], []⟩
      [("x.unity3d.backup.Nope")]).1 (Or.inr ?_)
    intro rel orig hpo
    have hside : parse_backup_name (pathName [("x.unity3d.backup.Nope")])
        = some (([("Nope")]), ("x.unity3d")) := by decide
    rw [hside] at hpo
    injection hpo with hpr
    injection hpr with hr ho
    subst hr
    subst ho
    exact ⟨by decide, by decide⟩
  · exact (restore_delete_only_after_copy
      ⟨[], [[], [("A")]], [([("x.unity3d.backup.A")], 5)], []⟩
      [("x.unity3d.backup.A")]).2 (by decide)

/-! ## Claim C6 (corrected): batch operations and single-mod failures -/

/-- Counterexample to C6 as stated: a batch verify over two enabled mods where
only the first mod's file is unreadable.  The `IOError` raised while hashing
the first mod aborts the whole batch: the exception propagates out of
`verify_enabled_mods` instead of being reported via the logger, and the
second (perfectly fine) mod is never processed — the log ends after the
banner line, with no `Verified:` line for it. -/
theorem verify_batch_abort :
    (verify_enabled_mods fingerprint (".unity3d") verifyAbortState).2
      = some PyExc.ioError
    ∧ (verify_enabled_mods fingerprint (".unity3d") verifyAbortState).1.log
      = [("Verifying enabled mods...")] := by
  decide

/-- Claim C6 as amended: the batch loops have no per-mod failure isolation —
an I/O error raised while hashing or copying one mod's files propagates out
of the batch loop at once, leaving the state as already mutated and the
remaining mods unprocessed.  (Only a failure signalled by return value, such
as a mod with no matching game files, leaves the loop running.) -/
theorem verify_loop_aborts_on_unreadable (sha256 : Content → String)
    (mp : FPath) (rest : List FPath) (st : FState)
    (h : fsLookup st.mods mp = some none) :
    verify_loop sha256 (mp :: rest) st = (st, some PyExc.ioError) := by
  simp [verify_loop, read_bytes, h]

/-- Witness for C6's amended claim at the concrete two-mod state. -/
theorem verify_loop_aborts_on_unreadable_witness :
    verify_loop fingerprint [[("a.unity3d")], [("b.unity3d")]] verifyAbortState
      = (verifyAbortState, some PyExc.ioError) :=
  verify_loop_aborts_on_unreadable fingerprint [("a.unity3d")] [[("b.unity3d")]]
    verifyAbortState (by decide)

/-! ## Sync lemmas (towards claim C3) -/

theorem update_hash_map_path (s : List ModStatusEntry) (p : FPath) (h : String) :
    (update_hash s p h).map (fun e => e.path) = s.map (fun e => e.path) := by
  induction s with
  | nil => simp [update_hash]
  | cons e rest ih =>
    by_cases he : e.path = p
    · by_cases hh : e.hash ≠ h <;> simp [update_hash, he, hh]
    · simp [update_hash, he, ih]

theorem update_hash_append_left {s : List ModStatusEntry} (t : List ModStatusEntry)
    {p : FPath} (h : String) (hp : p ∈ s.map (fun e => e.path)) :
    update_hash (s ++ t) p h = update_hash s p h ++ t := by
  induction s with
  | nil => simp at hp
  | cons e rest ih =>
    by_cases he : e.path = p
    · simp [update_hash, he]
    · simp only [List.map_cons, List.mem_cons] at hp
      rcases hp with hp | hp
      · exact absurd hp.symm he
      · simp [update_hash, he, ih hp]

theorem mem_update_hash_of_ne {s : List ModStatusEntry} {e : ModStatusEntry}
    (p : FPath) (h : String) (he : e ∈ s) (hne : e.path ≠ p) :
    e ∈ update_hash s p h := by
  induction s with
  | nil => simp at he
  | cons f rest ih =>
    rcases List.mem_cons.mp he with rfl | hmem
    · simp [update_hash, hne]
    · by_cases hf : f.path = p
      · simp only [update_hash, hf, if_true]
        exact List.mem_cons_of_mem _ hmem
      · simp only [update_hash, hf, if_false]
        exact List.mem_cons_of_mem _ (ih hmem)

theorem update_hash_mem_self {s : List ModStatusEntry} {e : ModStatusEntry}
    (h : String) (hnd : (s.map (fun x => x.path)).Nodup) (he : e ∈ s) :
    { e with hash := h } ∈ update_hash s e.path h := by
  induction s with
  | nil => simp at he
  | cons f rest ih =>
    simp only [List.map_cons, List.nodup_cons] at hnd
    rcases List.mem_cons.mp he with rfl | hmem
    · by_cases hh : e.hash ≠ h
      · simp [update_hash, hh]
      · push_neg at hh
        subst hh
        simp [update_hash]
    · by_cases hf : f.path = e.path
      · exact absurd (hf ▸ List.mem_map.mpr ⟨e, hmem, rfl⟩) hnd.1
      · simp only [update_hash, hf, if_false]
        exact List.mem_cons_of_mem _ (ih hnd.2 hmem)

theorem sync_updates_map_path (sha256 : Content → String) (tracked : List FPath) :
    ∀ (fs : List (FPath × Content)) (s : List ModStatusEntry),
      (sync_updates sha256 tracked fs s).map (fun e => e.path)
        = s.map (fun e => e.path) := by
  intro fs
  induction fs with
  | nil => intro s; rfl
  | cons f fs ih =>
    intro s
    by_cases hf : f.1 ∈ tracked
    · simp only [sync_updates, hf, if_true]
      rw [ih, update_hash_map_path]
    · simp only [sync_updates, hf, if_false]
      exact ih s

theorem sync_updates_mem_preserve (sha256 : Content → String) (tracked : List FPath)
    {e : ModStatusEntry} :
    ∀ (fs : List (FPath × Content)) (s : List ModStatusEntry), e ∈ s →
      (∀ g ∈ fs, g.1 ≠ e.path) → e ∈ sync_updates sha256 tracked fs s := by
  intro fs
  induction fs with
  | nil => intro s he _; exact he
  | cons g fs ih =>
    intro s he hg
    by_cases hgt : g.1 ∈ tracked
    · simp only [sync_updates, hgt, if_true]
      refine ih _ ?_ (fun g1 hg1 => hg g1 (List.mem_cons_of_mem _ hg1))
      exact mem_update_hash_of_ne _ _ he
        (fun hc => hg g (List.mem_cons_self _ _) hc.symm)
    · simp only [sync_updates, hgt, if_false]
      exact ih _ he (fun g1 hg1 => hg g1 (List.mem_cons_of_mem _ hg1))

theorem sync_updates_entry (sha256 : Content → String) (tracked : List FPath)
    {e : ModStatusEntry} :
    ∀ (fs : List (FPath × Content)) (s : List ModStatusEntry) (f : FPath × Content),
      (s.map (fun x => x.path)).Nodup → e ∈ s →
      (fs.map (fun g => g.1)).Nodup → f ∈ fs → f.1 = e.path → f.1 ∈ tracked →
      { e with hash := sha256 f.2 } ∈ sync_updates sha256 tracked fs s := by
  intro fs
  induction fs with
  | nil =>
    intro s f _ _ _ hf
    simp at hf
  | cons g fs ih =>
    intro s f hnd he hfnd hf hfe htr
    simp only [List.map_cons, List.nodup_cons] at hfnd
    rcases List.mem_cons.mp hf with rfl | hmem
    · simp only [sync_updates, htr, if_true]
      apply sync_updates_mem_preserve
      · rw [hfe]
        exact update_hash_mem_self _ hnd he
      · intro g1 hg1 hc
        have hff : f.1 = g1.1 := by
          rw [hfe]
          exact hc.symm
        exact hfnd.1 (hff ▸ List.mem_map.mpr ⟨g1, hg1, rfl⟩)
    · have hgne : g.1 ≠ e.path := by
        intro hc
        exact hfnd.1 (hc ▸ hfe ▸ List.mem_map.mpr ⟨f, hmem, rfl⟩)
      by_cases hgt : g.1 ∈ tracked
      · simp only [sync_updates, hgt, if_true]
        refine ih _ f ?_ ?_ hfnd.2 hmem hfe htr
        · rw [update_hash_map_path]
          exact hnd
        · exact mem_update_hash_of_ne _ _ he (fun hc => hgne hc.symm)
      · simp only [sync_updates, hgt, if_false]
        exact ih _ f hnd he hfnd.2 hmem hfe htr

theorem sync_process_split (sha256 : Content → String) (tracked : List FPath) :
    ∀ (fs : List (FPath × Content)) (s t : List ModStatusEntry),
      (∀ p ∈ tracked, p ∈ s.map (fun e => e.path)) →
      sync_process sha256 tracked fs (s ++ t) =
        sync_updates sha256 tracked fs s ++
          (t ++ (fs.filter (fun f => !(decide (f.1 ∈ tracked)))).map (newEntry sha256)) := by
  intro fs
  induction fs with
  | nil =>
    intro s t _
    simp [sync_process, sync_updates]
  | cons f fs ih =>
    intro s t hsub
    by_cases hf : f.1 ∈ tracked
    · have hupd : update_hash (s ++ t) f.1 (sha256 f.2)
          = update_hash s f.1 (sha256 f.2) ++ t :=
        update_hash_append_left t _ (hsub _ hf)
      simp only [sync_process, sync_updates, hf, if_true, hupd]
      rw [ih _ t (fun p hp => by rw [update_hash_map_path]; exact hsub p hp)]
      simp [hf]
    · simp only [sync_process, sync_updates, hf, if_false]
      rw [List.append_assoc, ih s (t ++ [newEntry sha256 f]) hsub]
      simp [hf]

/-! ## Claim C3: drift reconciliation (`sync_with_files`) -/

/-- Claim C3: for every status-store state (with distinct record paths) and
every mods tree (with distinct file paths), `sync_with_files`
(1) inserts a fresh record — disabled, empty `applied_hash`, hash computed
from the file — for each current file not yet tracked;
(2) returns as orphans exactly the tracked records whose path is absent from
the current files and whose enabled flag is set;
(3) removes every tracked record whose path is absent (every surviving record
points at a current file); and
(4) for each tracked record still present, recomputes the content hash in
place while leaving `enabled` and `applied_hash` unchanged. -/
theorem sync_with_files_spec (sha256 : Content → String) (ext : String)
    (mods : List (FPath × Content)) (store : StoreState)
    (hst : (store.data.map (fun e => e.path)).Nodup)
    (hmods : (mods.map (fun f => f.1)).Nodup) :
    (∀ f ∈ current_mod_files ext mods,
      (∀ e ∈ store.data, e.path ≠ f.1) →
      newEntry sha256 f ∈ (sync_with_files sha256 ext mods store).1.data)
    ∧ (∀ e, e ∈ (sync_with_files sha256 ext mods store).2 ↔
        e ∈ store.data ∧
        e.path ∉ (current_mod_files ext mods).map (fun f => f.1) ∧ e.enabled = true)
    ∧ (∀ e ∈ (sync_with_files sha256 ext mods store).1.data,
        e.path ∈ (current_mod_files ext mods).map (fun f => f.1))
    ∧ (∀ e ∈ store.data, ∀ f ∈ current_mod_files ext mods, e.path = f.1 →
        (⟨e.path, sha256 f.2, e.applied_hash, e.enabled⟩ : ModStatusEntry)
          ∈ (sync_with_files sha256 ext mods store).1.data) := by
  have hdata : (sync_with_files sha256 ext mods store).1.data =
      sync_updates sha256
        ((store.data.filter (fun e =>
            decide (e.path ∈ (current_mod_files ext mods).map (fun f => f.1)))).map
          (fun e => e.path))
        (current_mod_files ext mods)
        (store.data.filter (fun e =>
            decide (e.path ∈ (current_mod_files ext mods).map (fun f => f.1)))) ++
      ((current_mod_files ext mods).filter (fun f =>
          !(decide (f.1 ∈ (store.data.filter (fun e =>
              decide (e.path ∈ (current_mod_files ext mods).map (fun f => f.1)))).map
            (fun e => e.path))))).map (newEntry sha256) := by
    have h0 := sync_process_split sha256
      ((store.data.filter (fun e =>
          decide (e.path ∈ (current_mod_files ext mods).map (fun f => f.1)))).map
        (fun e => e.path))
      (current_mod_files ext mods)
      (store.data.filter (fun e =>
          decide (e.path ∈ (current_mod_files ext mods).map (fun f => f.1))))
      [] (fun p hp => hp)
    rw [List.append_nil, List.nil_append] at h0
    rw [show (sync_with_files sha256 ext mods store).1.data =
      sync_process sha256
        ((store.data.filter (fun e =>
            decide (e.path ∈ (current_mod_files ext mods).map (fun f => f.1)))).map
          (fun e => e.path))
        (current_mod_files ext mods)
        (store.data.filter (fun e =>
            decide (e.path ∈ (current_mod_files ext mods).map (fun f => f.1)))) from rfl]
    rw [h0]
  have hnd1 : ((store.data.filter (fun e =>
      decide (e.path ∈ (current_mod_files ext mods).map (fun f => f.1)))).map
        (fun e => e.path)).Nodup :=
    List.Nodup.sublist (List.Sublist.map _ (List.filter_sublist _)) hst
  have hndC : ((current_mod_files ext mods).map (fun f => f.1)).Nodup := by
    refine List.Nodup.sublist (List.Sublist.map _ ?_) hmods
    exact List.Sublist.trans (List.filter_sublist _) (List.filter_sublist _)
  refine ⟨?_, ?_, ?_, ?_⟩
  · intro f hf hnew
    have hnotin : f.1 ∉ (store.data.filter (fun e =>
        decide (e.path ∈ (current_mod_files ext mods).map (fun g => g.1)))).map
          (fun e => e.path) := by
      intro hcon
      obtain ⟨e, he, hep⟩ := List.mem_map.mp hcon
      exact hnew e (List.mem_of_mem_filter he) hep
    rw [hdata]
    refine List.mem_append_right _ ?_
    exact List.mem_map.mpr ⟨f, List.mem_filter.mpr ⟨hf, by simp [hnotin]⟩, rfl⟩
  · intro e
    have h2 : (sync_with_files sha256 ext mods store).2 =
        store.data.filter (fun e =>
          !(decide (e.path ∈ (current_mod_files ext mods).map (fun f => f.1)))
            && e.enabled) := rfl
    rw [h2, List.mem_filter]
    simp [and_assoc]
  · intro e he
    rw [hdata] at he
    rcases List.mem_append.mp he with he | he
    · have hp : e.path ∈ (sync_updates sha256
          ((store.data.filter (fun e =>
              decide (e.path ∈ (current_mod_files ext mods).map (fun f => f.1)))).map
            (fun e => e.path))
          (current_mod_files ext mods)
          (store.data.filter (fun e =>
              decide (e.path ∈ (current_mod_files ext mods).map (fun f => f.1))))).map
            (fun e => e.path) :=
        List.mem_map.mpr ⟨e, he, rfl⟩
      rw [sync_updates_map_path] at hp
      obtain ⟨e1, he1, hep⟩ := List.mem_map.mp hp
      have := List.of_mem_filter he1
      rw [← hep]
      simpa using this
    · obtain ⟨f, hf, hfe⟩ := List.mem_map.mp he
      rw [← hfe]
      exact List.mem_map.mpr ⟨f, List.mem_of_mem_filter hf, rfl⟩
  · intro e he f hf hef
    have hed1 : e ∈ store.data.filter (fun e =>
        decide (e.path ∈ (current_mod_files ext mods).map (fun g => g.1))) := by
      refine List.mem_filter.mpr ⟨he, ?_⟩
      simp only [decide_eq_true_eq]
      exact List.mem_map.mpr ⟨f, hf, hef.symm⟩
    have htr : f.1 ∈ (store.data.filter (fun e =>
        decide (e.path ∈ (current_mod_files ext mods).map (fun g => g.1)))).map
          (fun e => e.path) :=
      List.mem_map.mpr ⟨e, hed1, hef⟩
    have hmem := sync_updates_entry sha256
      ((store.data.filter (fun e =>
          decide (e.path ∈ (current_mod_files ext mods).map (fun g => g.1)))).map
        (fun e => e.path))
      (current_mod_files ext mods)
      (store.data.filter (fun e =>
          decide (e.path ∈ (current_mod_files ext mods).map (fun g => g.1))))
      f hnd1 hed1 hndC hf hef.symm htr
    rw [hdata]
    exact List.mem_append_left _ hmem

/-- Witness for C3 at a concrete store and mods tree: a tracked file whose
content changed, a new untracked file, and an enabled record whose file
vanished. -/
theorem sync_with_files_spec_witness :
    (∀ f ∈ current_mod_files (".unity3d") syncWitnessMods,
      (∀ e ∈ syncWitnessStore.data, e.path ≠ f.1) →
      newEntry fingerprint f
        ∈ (sync_with_files fingerprint (".unity3d") syncWitnessMods syncWitnessStore).1.data)
    ∧ (∀ e, e ∈ (sync_with_files fingerprint (".unity3d") syncWitnessMods syncWitnessStore).2 ↔
        e ∈ syncWitnessStore.data ∧
        e.path ∉ (current_mod_files (".unity3d") syncWitnessMods).map (fun f => f.1) ∧
        e.enabled = true)
    ∧ (∀ e ∈ (sync_with_files fingerprint (".unity3d") syncWitnessMods syncWitnessStore).1.data,
        e.path ∈ (current_mod_files (".unity3d") syncWitnessMods).map (fun f => f.1))
    ∧ (∀ e ∈ syncWitnessStore.data, ∀ f ∈ current_mod_files (".unity3d") syncWitnessMods,
        e.path = f.1 →
        (⟨e.path, fingerprint f.2, e.applied_hash, e.enabled⟩ : ModStatusEntry)
          ∈ (sync_with_files fingerprint (".unity3d") syncWitnessMods syncWitnessStore).1.data) :=
  sync_with_files_spec fingerprint (".unity3d") syncWitnessMods syncWitnessStore
    (by decide) (by decide)

/-! ## Apply/unapply loop lemmas (towards claims C2 and C5) -/

theorem apply_file_step_eqhash (sha256 : Content → String) (modC : Content)
    (applied : String) (gameC : Content) (bC : Option Content)
    (heq : sha256 modC = sha256 gameC) :
    apply_file_step sha256 modC applied gameC bC = (gameC, bC, []) := by
  simp [apply_file_step, heq]

theorem apply_file_step_nobackup (sha256 : Content → String) (modC : Content)
    (applied : String) (gameC : Content)
    (hne : sha256 modC ≠ sha256 gameC) :
    apply_file_step sha256 modC applied gameC none
      = (modC, some gameC, [CopyOp.gameToBackup, CopyOp.modToGame]) := by
  simp [apply_file_step, hne]

theorem apply_file_step_stale (sha256 : Content → String) (modC : Content)
    (applied : String) (gameC b : Content)
    (hne : sha256 modC ≠ sha256 gameC)
    (hguard : ¬ (sha256 gameC = applied ∧ applied ≠ "")) :
    apply_file_step sha256 modC applied gameC (some b)
      = (modC, some gameC, [CopyOp.gameToBackup, CopyOp.modToGame]) := by
  simp only [apply_file_step]
  rw [if_neg hne, if_neg hguard]

theorem apply_file_noop_of_eqhash (sha256 : Content → String) (modRel : FPath)
    (modC : Content) (applied : String)
    (s : List (FPath × Content) × List (FPath × Content)) (gf : FPath)
    {gameC : Content} (hF : fsLookup s.1 gf = some gameC)
    (heq : sha256 modC = sha256 gameC) :
    apply_file sha256 modRel modC applied s gf = s := by
  simp only [apply_file, hF, apply_file_step_eqhash sha256 modC applied gameC _ heq]
  rcases hb : fsLookup s.2 (get_backup_path modRel gf) with _ | c
  · simp [fsWrite_eq_of_lookup hF]
  · simp [fsWrite_eq_of_lookup hF, fsWrite_eq_of_lookup hb]

theorem apply_file_map_fst (sha256 : Content → String) (modRel : FPath)
    (modC : Content) (applied : String)
    (s : List (FPath × Content) × List (FPath × Content)) (gf : FPath) :
    ((apply_file sha256 modRel modC applied s gf).1).map Prod.fst
      = s.1.map Prod.fst := by
  rcases hF : fsLookup s.1 gf with _ | gameC
  · simp [apply_file, hF]
  · simp only [apply_file, hF]
    exact map_fst_fsWrite _ (by simp [hF])

theorem apply_file_backups_nodup (sha256 : Content → String) (modRel : FPath)
    (modC : Content) (applied : String)
    (s : List (FPath × Content) × List (FPath × Content)) (gf : FPath)
    (h : (s.2.map Prod.fst).Nodup) :
    (((apply_file sha256 modRel modC applied s gf).2).map Prod.fst).Nodup := by
  rcases hF : fsLookup s.1 gf with _ | gameC
  · simpa [apply_file, hF] using h
  · simp only [apply_file, hF]
    rcases hr : (apply_file_step sha256 modC applied gameC
        (fsLookup s.2 (get_backup_path modRel gf))).2.1 with _ | c
    · simpa using h
    · simpa using nodup_map_fst_fsWrite _ c h

theorem apply_file_lookup_other (sha256 : Content → String) (modRel : FPath)
    (modC : Content) (applied : String)
    (s : List (FPath × Content) × List (FPath × Content)) (gf : FPath)
    {F bpF : FPath} (hne : gf ≠ F) (hbp : get_backup_path modRel gf ≠ bpF) :
    fsLookup (apply_file sha256 modRel modC applied s gf).1 F = fsLookup s.1 F ∧
    fsLookup (apply_file sha256 modRel modC applied s gf).2 bpF = fsLookup s.2 bpF := by
  rcases hF : fsLookup s.1 gf with _ | gameC
  · simp [apply_file, hF]
  · simp only [apply_file, hF]
    constructor
    · exact fsLookup_fsWrite_ne _ _ hne
    · rcases hr : (apply_file_step sha256 modC applied gameC
          (fsLookup s.2 (get_backup_path modRel gf))).2.1 with _ | c
      · simp
      · simpa using fsLookup_fsWrite_ne _ _ hbp

theorem apply_files_append (sha256 : Content → String) (modRel : FPath)
    (modC : Content) (applied : String) :
    ∀ (l1 l2 : List FPath) (s : List (FPath × Content) × List (FPath × Content)),
      apply_files sha256 modRel modC applied (l1 ++ l2) s
        = apply_files sha256 modRel modC applied l2
            (apply_files sha256 modRel modC applied l1 s) := by
  intro l1
  induction l1 with
  | nil => intro l2 s; rfl
  | cons g l1 ih =>
    intro l2 s
    simp only [List.cons_append, apply_files]
    exact ih l2 _

theorem apply_files_map_fst (sha256 : Content → String) (modRel : FPath)
    (modC : Content) (applied : String) :
    ∀ (gfs : List FPath) (s : List (FPath × Content) × List (FPath × Content)),
      ((apply_files sha256 modRel modC applied gfs s).1).map Prod.fst
        = s.1.map Prod.fst := by
  intro gfs
  induction gfs with
  | nil => intro s; rfl
  | cons g gfs ih =>
    intro s
    simp only [apply_files]
    rw [ih, apply_file_map_fst]

theorem apply_files_backups_nodup (sha256 : Content → String) (modRel : FPath)
    (modC : Content) (applied : String) :
    ∀ (gfs : List FPath) (s : List (FPath × Content) × List (FPath × Content)),
      (s.2.map Prod.fst).Nodup →
      (((apply_files sha256 modRel modC applied gfs s).2).map Prod.fst).Nodup := by
  intro gfs
  induction gfs with
  | nil => intro s h; exact h
  | cons g gfs ih =>
    intro s h
    simp only [apply_files]
    exact ih _ (apply_file_backups_nodup sha256 modRel modC applied s g h)

theorem apply_files_lookup_other (sha256 : Content → String) (modRel : FPath)
    (modC : Content) (applied : String) {F bpF : FPath} :
    ∀ (gfs : List FPath) (s : List (FPath × Content) × List (FPath × Content)),
      (∀ g ∈ gfs, g ≠ F ∧ get_backup_path modRel g ≠ bpF) →
      fsLookup (apply_files sha256 modRel modC applied gfs s).1 F = fsLookup s.1 F ∧
      fsLookup (apply_files sha256 modRel modC applied gfs s).2 bpF
        = fsLookup s.2 bpF := by
  intro gfs
  induction gfs with
  | nil => intro s _; exact ⟨rfl, rfl⟩
  | cons g gfs ih =>
    intro s hprot
    simp only [apply_files]
    obtain ⟨h1, h2⟩ := hprot g (List.mem_cons_self _ _)
    obtain ⟨ha1, ha2⟩ := apply_file_lookup_other sha256 modRel modC applied s g h1 h2
    obtain ⟨hb1, hb2⟩ := ih (apply_file sha256 modRel modC applied s g)
      (fun g1 hg1 => hprot g1 (List.mem_cons_of_mem _ hg1))
    exact ⟨hb1.trans ha1, hb2.trans ha2⟩

theorem unapply_file_lookup_other (modRel : FPath)
    (s : List (FPath × Content) × List (FPath × Content)) (gf : FPath)
    {F bpF : FPath} (hne : gf ≠ F) (hbp : get_backup_path modRel gf ≠ bpF) :
    fsLookup (unapply_file modRel s gf).1 F = fsLookup s.1 F ∧
    fsLookup (unapply_file modRel s gf).2 bpF = fsLookup s.2 bpF := by
  rcases hb : fsLookup s.2 (get_backup_path modRel gf) with _ | bc
  · simp [unapply_file, hb]
  · simp only [unapply_file, hb]
    exact ⟨fsLookup_fsWrite_ne _ _ hne, fsLookup_fsErase_ne _ hbp⟩

theorem unapply_file_backups_nodup (modRel : FPath)
    (s : List (FPath × Content) × List (FPath × Content)) (gf : FPath)
    (h : (s.2.map Prod.fst).Nodup) :
    (((unapply_file modRel s gf).2).map Prod.fst).Nodup := by
  rcases hb : fsLookup s.2 (get_backup_path modRel gf) with _ | bc
  · simpa [unapply_file, hb] using h
  · simp only [unapply_file, hb]
    exact nodup_map_fst_fsErase _ h

theorem unapply_files_append (modRel : FPath) :
    ∀ (l1 l2 : List FPath) (s : List (FPath × Content) × List (FPath × Content)),
      unapply_files modRel (l1 ++ l2) s
        = unapply_files modRel l2 (unapply_files modRel l1 s) := by
  intro l1
  induction l1 with
  | nil => intro l2 s; rfl
  | cons g l1 ih =>
    intro l2 s
    simp only [List.cons_append, unapply_files]
    exact ih l2 _

theorem unapply_files_lookup_other (modRel : FPath) {F bpF : FPath} :
    ∀ (gfs : List FPath) (s : List (FPath × Content) × List (FPath × Content)),
      (∀ g ∈ gfs, g ≠ F ∧ get_backup_path modRel g ≠ bpF) →
      fsLookup (unapply_files modRel gfs s).1 F = fsLookup s.1 F ∧
      fsLookup (unapply_files modRel gfs s).2 bpF = fsLookup s.2 bpF := by
  intro gfs
  induction gfs with
  | nil => intro s _; exact ⟨rfl, rfl⟩
  | cons g gfs ih =>
    intro s hprot
    simp only [unapply_files]
    obtain ⟨h1, h2⟩ := hprot g (List.mem_cons_self _ _)
    obtain ⟨ha1, ha2⟩ := unapply_file_lookup_other modRel s g h1 h2
    obtain ⟨hb1, hb2⟩ := ih (unapply_file modRel s g)
      (fun g1 hg1 => hprot g1 (List.mem_cons_of_mem _ hg1))
    exact ⟨hb1.trans ha1, hb2.trans ha2⟩

theorem unapply_files_backups_nodup (modRel : FPath) :
    ∀ (gfs : List FPath) (s : List (FPath × Content) × List (FPath × Content)),
      (s.2.map Prod.fst).Nodup →
      (((unapply_files modRel gfs s).2).map Prod.fst).Nodup := by
  intro gfs
  induction gfs with
  | nil => intro s h; exact h
  | cons g gfs ih =>
    intro s h
    simp only [unapply_files]
    exact ih _ (unapply_file_backups_nodup modRel s g h)

theorem apply_file_at_nobackup (sha256 : Content → String) (modRel : FPath)
    (modC : Content) (applied : String)
    (s : List (FPath × Content) × List (FPath × Content)) (F : FPath)
    {g0 : Content} (hF : fsLookup s.1 F = some g0)
    (hnb : fsLookup s.2 (get_backup_path modRel F) = none)
    (hne : sha256 modC ≠ sha256 g0) :
    fsLookup (apply_file sha256 modRel modC applied s F).1 F = some modC ∧
    fsLookup (apply_file sha256 modRel modC applied s F).2
      (get_backup_path modRel F) = some g0 := by
  simp only [apply_file, hF, hnb,
    apply_file_step_nobackup sha256 modC applied g0 hne]
  exact ⟨fsLookup_fsWrite_self _ _ _, fsLookup_fsWrite_self _ _ _⟩

theorem apply_file_at_stale (sha256 : Content → String) (modRel : FPath)
    (modC : Content) (applied : String)
    (s : List (FPath × Content) × List (FPath × Content)) (F : FPath)
    {m b : Content} (hF : fsLookup s.1 F = some m)
    (hb : fsLookup s.2 (get_backup_path modRel F) = some b)
    (hne : sha256 modC ≠ sha256 m)
    (hguard : ¬ (sha256 m = applied ∧ applied ≠ "")) :
    fsLookup (apply_file sha256 modRel modC applied s F).1 F = some modC ∧
    fsLookup (apply_file sha256 modRel modC applied s F).2
      (get_backup_path modRel F) = some m := by
  simp only [apply_file, hF, hb,
    apply_file_step_stale sha256 modC applied m b hne hguard]
  exact ⟨fsLookup_fsWrite_self _ _ _, fsLookup_fsWrite_self _ _ _⟩

/-- Round trip over one pass of the apply loop followed by one pass of the
unapply loop, for a game file `F` appearing once in the processed list, with
no pre-existing backup for the pair: `F` ends with its original bytes and no
backup remains. -/
theorem roundtrip_segments (sha256 : Content → String) (modRel : FPath)
    (modC : Content) (applied : String)
    (game backups : List (FPath × Content)) (F : FPath) (g0 : Content)
    (l1 l2 : List FPath)
    (hF : fsLookup game F = some g0)
    (hndB : (backups.map Prod.fst).Nodup)
    (hnb : fsLookup backups (get_backup_path modRel F) = none)
    (hprot1 : ∀ g ∈ l1, g ≠ F ∧ get_backup_path modRel g ≠ get_backup_path modRel F)
    (hprot2 : ∀ g ∈ l2, g ≠ F ∧ get_backup_path modRel g ≠ get_backup_path modRel F) :
    fsLookup (unapply_files modRel (l1 ++ F :: l2)
        (apply_files sha256 modRel modC applied (l1 ++ F :: l2) (game, backups))).1 F
      = some g0
    ∧ fsLookup (unapply_files modRel (l1 ++ F :: l2)
        (apply_files sha256 modRel modC applied (l1 ++ F :: l2) (game, backups))).2
        (get_backup_path modRel F) = none := by
  rw [apply_files_append]
  obtain ⟨ha1, ha2⟩ := apply_files_lookup_other sha256 modRel modC applied l1
    (game, backups) hprot1
  simp only [apply_files]
  by_cases heq : sha256 modC = sha256 g0
  · rw [apply_file_noop_of_eqhash sha256 modRel modC applied _ F
      (ha1.trans hF) heq]
    obtain ⟨hb1, hb2⟩ := apply_files_lookup_other sha256 modRel modC applied l2
      (apply_files sha256 modRel modC applied l1 (game, backups)) hprot2
    rw [unapply_files_append]
    obtain ⟨hc1, hc2⟩ := unapply_files_lookup_other modRel l1
      (apply_files sha256 modRel modC applied l2
        (apply_files sha256 modRel modC applied l1 (game, backups))) hprot1
    have hnbu : fsLookup (unapply_files modRel l1
        (apply_files sha256 modRel modC applied l2
          (apply_files sha256 modRel modC applied l1 (game, backups)))).2
        (get_backup_path modRel F) = none :=
      hc2.trans (hb2.trans (ha2.trans hnb))
    simp only [unapply_files]
    rw [show unapply_file modRel (unapply_files modRel l1
        (apply_files sha256 modRel modC applied l2
          (apply_files sha256 modRel modC applied l1 (game, backups)))) F
      = unapply_files modRel l1
        (apply_files sha256 modRel modC applied l2
          (apply_files sha256 modRel modC applied l1 (game, backups))) from by
      simp [unapply_file, hnbu]]
    obtain ⟨hd1, hd2⟩ := unapply_files_lookup_other modRel l2
      (unapply_files modRel l1
        (apply_files sha256 modRel modC applied l2
          (apply_files sha256 modRel modC applied l1 (game, backups)))) hprot2
    constructor
    · rw [hd1, hc1, hb1, ha1]
      exact hF
    · rw [hd2]
      exact hnbu
  · obtain ⟨he1, he2⟩ := apply_file_at_nobackup sha256 modRel modC applied
      (apply_files sha256 modRel modC applied l1 (game, backups)) F
      (ha1.trans hF) (ha2.trans hnb) heq
    obtain ⟨hb1, hb2⟩ := apply_files_lookup_other sha256 modRel modC applied l2
      (apply_file sha256 modRel modC applied
        (apply_files sha256 modRel modC applied l1 (game, backups)) F) hprot2
    rw [unapply_files_append]
    obtain ⟨hc1, hc2⟩ := unapply_files_lookup_other modRel l1
      (apply_files sha256 modRel modC applied l2
        (apply_file sha256 modRel modC applied
          (apply_files sha256 modRel modC applied l1 (game, backups)) F)) hprot1
    have hbpu : fsLookup (unapply_files modRel l1
        (apply_files sha256 modRel modC applied l2
          (apply_file sha256 modRel modC applied
            (apply_files sha256 modRel modC applied l1 (game, backups)) F))).2
        (get_backup_path modRel F) = some g0 :=
      hc2.trans (hb2.trans he2)
    have hndA2 : (((apply_files sha256 modRel modC applied l2
        (apply_file sha256 modRel modC applied
          (apply_files sha256 modRel modC applied l1 (game, backups)) F)).2).map
          Prod.fst).Nodup :=
      apply_files_backups_nodup sha256 modRel modC applied l2 _
        (apply_file_backups_nodup sha256 modRel modC applied _ F
          (apply_files_backups_nodup sha256 modRel modC applied l1 (game, backups) hndB))
    have hndu1 : (((unapply_files modRel l1
        (apply_files sha256 modRel modC applied l2
          (apply_file sha256 modRel modC applied
            (apply_files sha256 modRel modC applied l1 (game, backups)) F))).2).map
          Prod.fst).Nodup :=
      unapply_files_backups_nodup modRel l1 _ hndA2
    simp only [unapply_files]
    rw [show unapply_file modRel (unapply_files modRel l1
        (apply_files sha256 modRel modC applied l2
          (apply_file sha256 modRel modC applied
            (apply_files sha256 modRel modC applied l1 (game, backups)) F))) F
      = (fsWrite (unapply_files modRel l1
          (apply_files sha256 modRel modC applied l2
            (apply_file sha256 modRel modC applied
              (apply_files sha256 modRel modC applied l1 (game, backups)) F))).1 F g0,
         fsErase (unapply_files modRel l1
          (apply_files sha256 modRel modC applied l2
            (apply_file sha256 modRel modC applied
              (apply_files sha256 modRel modC applied l1 (game, backups)) F))).2
          (get_backup_path modRel F)) from by
      simp [unapply_file, hbpu]]
    obtain ⟨hd1, hd2⟩ := unapply_files_lookup_other modRel l2
      ((fsWrite (unapply_files modRel l1
          (apply_files sha256 modRel modC applied l2
            (apply_file sha256 modRel modC applied
              (apply_files sha256 modRel modC applied l1 (game, backups)) F))).1 F g0,
        fsErase (unapply_files modRel l1
          (apply_files sha256 modRel modC applied l2
            (apply_file sha256 modRel modC applied
              (apply_files sha256 modRel modC applied l1 (game, backups)) F))).2
          (get_backup_path modRel F))) hprot2
    constructor
    · rw [hd1]
      exact fsLookup_fsWrite_self _ _ _
    · rw [hd2]
      exact fsLookup_fsErase_self _ hndu1

/-- Re-apply after an external game change, over one pass of the apply loop
(then one unapply pass): with a backup present and the live hash matching
neither the mod nor the recorded applied hash, the apply loop re-backups the
live content, and the subsequent unapply restores it. -/
theorem reapply_segments (sha256 : Content → String) (modRel : FPath)
    (modC : Content) (applied : String)
    (game backups : List (FPath × Content)) (F : FPath) (m b : Content)
    (l1 l2 : List FPath)
    (hF : fsLookup game F = some m)
    (hb : fsLookup backups (get_backup_path modRel F) = some b)
    (hne : sha256 modC ≠ sha256 m)
    (hguard : ¬ (sha256 m = applied ∧ applied ≠ ""))
    (hprot1 : ∀ g ∈ l1, g ≠ F ∧ get_backup_path modRel g ≠ get_backup_path modRel F)
    (hprot2 : ∀ g ∈ l2, g ≠ F ∧ get_backup_path modRel g ≠ get_backup_path modRel F) :
    fsLookup (apply_files sha256 modRel modC applied (l1 ++ F :: l2) (game, backups)).2
        (get_backup_path modRel F) = some m
    ∧ fsLookup (unapply_files modRel (l1 ++ F :: l2)
        (apply_files sha256 modRel modC applied (l1 ++ F :: l2) (game, backups))).1 F
      = some m := by
  rw [apply_files_append]
  obtain ⟨ha1, ha2⟩ := apply_files_lookup_other sha256 modRel modC applied l1
    (game, backups) hprot1
  simp only [apply_files]
  obtain ⟨he1, he2⟩ := apply_file_at_stale sha256 modRel modC applied
    (apply_files sha256 modRel modC applied l1 (game, backups)) F
    (ha1.trans hF) (ha2.trans hb) hne hguard
  obtain ⟨hb1, hb2⟩ := apply_files_lookup_other sha256 modRel modC applied l2
    (apply_file sha256 modRel modC applied
      (apply_files sha256 modRel modC applied l1 (game, backups)) F) hprot2
  constructor
  · exact hb2.trans he2
  · rw [unapply_files_append]
    obtain ⟨hc1, hc2⟩ := unapply_files_lookup_other modRel l1
      (apply_files sha256 modRel modC applied l2
        (apply_file sha256 modRel modC applied
          (apply_files sha256 modRel modC applied l1 (game, backups)) F)) hprot1
    have hbpu : fsLookup (unapply_files modRel l1
        (apply_files sha256 modRel modC applied l2
          (apply_file sha256 modRel modC applied
            (apply_files sha256 modRel modC applied l1 (game, backups)) F))).2
        (get_backup_path modRel F) = some m :=
      hc2.trans (hb2.trans he2)
    simp only [unapply_files]
    rw [show unapply_file modRel (unapply_files modRel l1
        (apply_files sha256 modRel modC applied l2
          (apply_file sha256 modRel modC applied
            (apply_files sha256 modRel modC applied l1 (game, backups)) F))) F
      = (fsWrite (unapply_files modRel l1
          (apply_files sha256 modRel modC applied l2
            (apply_file sha256 modRel modC applied
              (apply_files sha256 modRel modC applied l1 (game, backups)) F))).1 F m,
         fsErase (unapply_files modRel l1
          (apply_files sha256 modRel modC applied l2
            (apply_file sha256 modRel modC applied
              (apply_files sha256 modRel modC applied l1 (game, backups)) F))).2
          (get_backup_path modRel F)) from by
      simp [unapply_file, hbpu]]
    obtain ⟨hd1, hd2⟩ := unapply_files_lookup_other modRel l2
      ((fsWrite (unapply_files modRel l1
          (apply_files sha256 modRel modC applied l2
            (apply_file sha256 modRel modC applied
              (apply_files sha256 modRel modC applied l1 (game, backups)) F))).1 F m,
        fsErase (unapply_files modRel l1
          (apply_files sha256 modRel modC applied l2
            (apply_file sha256 modRel modC applied
              (apply_files sha256 modRel modC applied l1 (game, backups)) F))).2
          (get_backup_path modRel F))) hprot2
    rw [hd1]
    exact fsLookup_fsWrite_self _ _ _

theorem find_original_files_apply_files (sha256 : Content → String)
    (modRel : FPath) (modC : Content) (applied : String) (gfs : List FPath)
    (game backups : List (FPath × Content)) (n : String) :
    find_original_files (apply_files sha256 modRel modC applied gfs (game, backups)).1 n
      = find_original_files game n := by
  unfold find_original_files
  rw [show (apply_files sha256 modRel modC applied gfs (game, backups)).1.map
      (fun f => f.1) = game.map (fun f => f.1) from
    apply_files_map_fst sha256 modRel modC applied gfs (game, backups)]

/-! ## Claims C2 and C5: the main apply/unapply theorems -/

/-- Counterexample to claim C2 as stated: the backup-filename encoding is not
injective, so the same-named fresh game files `A.B/x.unity3d` (bytes `1`,
hash `H₀ = fingerprint 1`) and `A/B/x.unity3d` (bytes `2`) share one backup
slot.  Applying a mod (bytes `7`) backs up `1`, then the second file's
iteration blindly overwrites that backup with `2`; unapplying restores `2`
onto the first file and leaves the second still holding the mod.  The first
file's content hash after the round trip is `fingerprint 2 ≠ fingerprint 1`,
so the round trip fails even though both pairs were fresh and nothing changed
externally. -/
theorem roundtrip_collision :
    fsLookup (_unapply_mod [("M"), ("x.unity3d")]
        (_apply_mod fingerprint [("M"), ("x.unity3d")] 7 collisionState).1).game
      [("A.B"), ("x.unity3d")] = some 2
    ∧ fsLookup (_unapply_mod [("M"), ("x.unity3d")]
        (_apply_mod fingerprint [("M"), ("x.unity3d")] 7 collisionState).1).game
      [("A"), ("B"), ("x.unity3d")] = some 7
    ∧ fingerprint 2 ≠ fingerprint 1 := by
  decide

/-- Claim C2 as amended: for every game file `F` (hash `H₀` = fingerprint of
bytes `g0`) targeted by a mod file of the same filename, with no pre-existing
backup for the pair, and provided no other same-named game file's backup slot
collides with `F`'s under the `{name}.backup.{dot-joined parts}` encoding
(slots collide exactly when the dot-joined intermediate folder parts
coincide, e.g. `A.B/` versus `A/B/` — there the round trip genuinely fails),
running `_apply_mod` followed by `_unapply_mod` with no external change in
between leaves `F` with its original bytes `g0` (hence its original hash) and
leaves no backup file for the pair.  The Nodup hypotheses say the game and
backup trees have distinct paths. -/
theorem apply_unapply_roundtrip (sha256 : Content → String) (modRel : FPath)
    (modC : Content) (st : LoaderState) (F : FPath) (g0 : Content)
    (hF : fsLookup st.game F = some g0)
    (hname : F.getLast? = some (pathName modRel))
    (hndG : (st.game.map Prod.fst).Nodup)
    (hndB : (st.backups.map Prod.fst).Nodup)
    (hnb : fsLookup st.backups (get_backup_path modRel F) = none)
    (hinj : ∀ g ∈ find_original_files st.game (pathName modRel),
      g ≠ F → get_backup_path modRel g ≠ get_backup_path modRel F) :
    fsLookup (_unapply_mod modRel (_apply_mod sha256 modRel modC st).1).game F
      = some g0
    ∧ fsLookup (_unapply_mod modRel (_apply_mod sha256 modRel modC st).1).backups
        (get_backup_path modRel F) = none := by
  have hFkeys : F ∈ st.game.map Prod.fst := mem_map_fst_of_fsLookup hF
  have hFmem : F ∈ find_original_files st.game (pathName modRel) := by
    simp only [find_original_files, List.mem_filter]
    exact ⟨hFkeys, by simp [hname]⟩
  have hnnil : find_original_files st.game (pathName modRel) ≠ [] :=
    List.ne_nil_of_mem hFmem
  obtain ⟨l1, l2, hdec⟩ := List.append_of_mem hFmem
  have hndfind : (find_original_files st.game (pathName modRel)).Nodup := by
    unfold find_original_files
    exact List.Nodup.sublist (List.filter_sublist _) hndG
  have hndl : (l1 ++ F :: l2).Nodup := hdec ▸ hndfind
  rw [List.nodup_append] at hndl
  have hFl2 : F ∉ l2 := (List.nodup_cons.mp hndl.2.1).1
  have hFl1 : F ∉ l1 := fun hc => hndl.2.2 hc (List.mem_cons_self _ _)
  have hprot1 : ∀ g ∈ l1, g ≠ F ∧
      get_backup_path modRel g ≠ get_backup_path modRel F := by
    intro g hg
    have hgF : g ≠ F := fun hc => hFl1 (hc ▸ hg)
    refine ⟨hgF, hinj g ?_ hgF⟩
    rw [hdec]
    exact List.mem_append_left _ hg
  have hprot2 : ∀ g ∈ l2, g ≠ F ∧
      get_backup_path modRel g ≠ get_backup_path modRel F := by
    intro g hg
    have hgF : g ≠ F := fun hc => hFl2 (hc ▸ hg)
    refine ⟨hgF, hinj g ?_ hgF⟩
    rw [hdec]
    exact List.mem_append_right _ (List.mem_cons_of_mem _ hg)
  have happly : (_apply_mod sha256 modRel modC st).1 =
      ⟨(apply_files sha256 modRel modC
          (match get_entry st.status.data modRel with
            | some e => e.applied_hash
            | none => "")
          (find_original_files st.game (pathName modRel)) (st.game, st.backups)).1,
        (apply_files sha256 modRel modC
          (match get_entry st.status.data modRel with
            | some e => e.applied_hash
            | none => "")
          (find_original_files st.game (pathName modRel)) (st.game, st.backups)).2,
        set_applied_hash st.status modRel (sha256 modC)⟩ := by
    simp [_apply_mod, hnnil]
  rw [happly]
  have hfindeq : find_original_files
      (apply_files sha256 modRel modC
        (match get_entry st.status.data modRel with
          | some e => e.applied_hash
          | none => "")
        (find_original_files st.game (pathName modRel)) (st.game, st.backups)).1
      (pathName modRel) = find_original_files st.game (pathName modRel) :=
    find_original_files_apply_files sha256 modRel modC _ _ st.game st.backups _
  show fsLookup (_unapply_mod modRel _).game F = some g0 ∧ _
  unfold _unapply_mod
  rw [hfindeq, hdec]
  exact roundtrip_segments sha256 modRel modC
    (match get_entry st.status.data modRel with
      | some e => e.applied_hash
      | none => "")
    st.game st.backups F g0 l1 l2 hF hndB hnb hprot1 hprot2

/-- Witness for C2 at a concrete state: one game file, a same-named mod,
no backup. -/
theorem apply_unapply_roundtrip_witness :
    fsLookup (_unapply_mod [("M"), ("foo.unity3d")]
        (_apply_mod fingerprint [("M"), ("foo.unity3d")] 7
          ⟨[([("A"), ("foo.unity3d")], 5)], [], ⟨[], false⟩⟩).1).game
      [("A"), ("foo.unity3d")] = some 5
    ∧ fsLookup (_unapply_mod [("M"), ("foo.unity3d")]
        (_apply_mod fingerprint [("M"), ("foo.unity3d")] 7
          ⟨[([("A"), ("foo.unity3d")], 5)], [], ⟨[], false⟩⟩).1).backups
        (get_backup_path [("M"), ("foo.unity3d")] [("A"), ("foo.unity3d")]) = none :=
  apply_unapply_roundtrip fingerprint [("M"), ("foo.unity3d")] 7
    ⟨[([("A"), ("foo.unity3d")], 5)], [], ⟨[], false⟩⟩
    [("A"), ("foo.unity3d")] 5 (by decide) (by decide) (by decide) (by decide)
    (by decide) (by decide)

/-- Counterexample to claim C5 as stated: the game file (original bytes `1`,
backed up) is mutated externally to bytes `7` while an older mod version is
recorded as applied (`applied_hash = fingerprint 5`, so the applied hash is
set and no longer equals the live hash `fingerprint 7`) — but `7` happens to
equal the mod file's current content.  Re-applying hits the `mod_hash ==
game_hash` no-op case: the new live content is **not** copied over the old
backup (it still holds `1`), and the subsequent unapply restores `1`, the
stale original, not the mutated content `7`. -/
theorem reapply_mutation_equals_mod :
    fingerprint 5 ≠ ("")
    ∧ fingerprint 7 ≠ fingerprint 5
    ∧ fsLookup (_apply_mod fingerprint [("M"), ("x.unity3d")] 7
        mutatedGameState).1.backups
        (get_backup_path [("M"), ("x.unity3d")] [("A"), ("x.unity3d")]) = some 1
    ∧ fsLookup (_unapply_mod [("M"), ("x.unity3d")]
        (_apply_mod fingerprint [("M"), ("x.unity3d")] 7 mutatedGameState).1).game
      [("A"), ("x.unity3d")] = some 1 := by
  decide

/-- Claim C5 as amended: if, while a mod is applied (its record's
`applied_hash` set), the game file `F` is mutated externally to bytes `m`
whose hash no longer matches the recorded applied hash, then — provided the
mod's current content differs from the mutated live content (otherwise the
apply loop no-ops as "already applied" and the stale backup survives), and no
other same-named game file's backup slot collides with `F`'s (a collision
would clobber the re-backup) — calling `_apply_mod` again copies the new live
content `m` over the old backup before overlaying the mod, so a subsequent
`_unapply_mod` restores the mutated content `m`, not the original pre-mod
content. -/
theorem reapply_rebackups_external_change (sha256 : Content → String)
    (modRel : FPath) (modC : Content) (st : LoaderState) (F : FPath)
    (m b : Content) (e : ModStatusEntry)
    (hentry : get_entry st.status.data modRel = some e)
    (hset : e.applied_hash ≠ "")
    (hF : fsLookup st.game F = some m)
    (hdrift : sha256 m ≠ e.applied_hash)
    (hmod : sha256 modC ≠ sha256 m)
    (hname : F.getLast? = some (pathName modRel))
    (hndG : (st.game.map Prod.fst).Nodup)
    (hb : fsLookup st.backups (get_backup_path modRel F) = some b)
    (hinj : ∀ g ∈ find_original_files st.game (pathName modRel),
      g ≠ F → get_backup_path modRel g ≠ get_backup_path modRel F) :
    fsLookup (_apply_mod sha256 modRel modC st).1.backups
        (get_backup_path modRel F) = some m
    ∧ fsLookup (_unapply_mod modRel (_apply_mod sha256 modRel modC st).1).game F
      = some m := by
  have hFkeys : F ∈ st.game.map Prod.fst := mem_map_fst_of_fsLookup hF
  have hFmem : F ∈ find_original_files st.game (pathName modRel) := by
    simp only [find_original_files, List.mem_filter]
    exact ⟨hFkeys, by simp [hname]⟩
  have hnnil : find_original_files st.game (pathName modRel) ≠ [] :=
    List.ne_nil_of_mem hFmem
  obtain ⟨l1, l2, hdec⟩ := List.append_of_mem hFmem
  have hndfind : (find_original_files st.game (pathName modRel)).Nodup := by
    unfold find_original_files
    exact List.Nodup.sublist (List.filter_sublist _) hndG
  have hndl : (l1 ++ F :: l2).Nodup := hdec ▸ hndfind
  rw [List.nodup_append] at hndl
  have hFl2 : F ∉ l2 := (List.nodup_cons.mp hndl.2.1).1
  have hFl1 : F ∉ l1 := fun hc => hndl.2.2 hc (List.mem_cons_self _ _)
  have hprot1 : ∀ g ∈ l1, g ≠ F ∧
      get_backup_path modRel g ≠ get_backup_path modRel F := by
    intro g hg
    have hgF : g ≠ F := fun hc => hFl1 (hc ▸ hg)
    refine ⟨hgF, hinj g ?_ hgF⟩
    rw [hdec]
    exact List.mem_append_left _ hg
  have hprot2 : ∀ g ∈ l2, g ≠ F ∧
      get_backup_path modRel g ≠ get_backup_path modRel F := by
    intro g hg
    have hgF : g ≠ F := fun hc => hFl2 (hc ▸ hg)
    refine ⟨hgF, hinj g ?_ hgF⟩
    rw [hdec]
    exact List.mem_append_right _ (List.mem_cons_of_mem _ hg)
  have hguard : ¬ (sha256 m = e.applied_hash ∧ e.applied_hash ≠ "") :=
    fun hc => hdrift hc.1
  have happly : (_apply_mod sha256 modRel modC st).1 =
      ⟨(apply_files sha256 modRel modC e.applied_hash
          (find_original_files st.game (pathName modRel)) (st.game, st.backups)).1,
        (apply_files sha256 modRel modC e.applied_hash
          (find_original_files st.game (pathName modRel)) (st.game, st.backups)).2,
        set_applied_hash st.status modRel (sha256 modC)⟩ := by
    simp [_apply_mod, hnnil, hentry]
  rw [happly]
  have hfindeq : find_original_files
      (apply_files sha256 modRel modC e.applied_hash
        (find_original_files st.game (pathName modRel)) (st.game, st.backups)).1
      (pathName modRel) = find_original_files st.game (pathName modRel) :=
    find_original_files_apply_files sha256 modRel modC _ _ st.game st.backups _
  constructor
  · show fsLookup (apply_files sha256 modRel modC e.applied_hash
        (find_original_files st.game (pathName modRel)) (st.game, st.backups)).2
        (get_backup_path modRel F) = some m
    rw [hdec]
    exact (reapply_segments sha256 modRel modC e.applied_hash st.game st.backups
      F m b l1 l2 hF hb hmod hguard hprot1 hprot2).1
  · show fsLookup (_unapply_mod modRel _).game F = some m
    unfold _unapply_mod
    rw [hfindeq, hdec]
    exact (reapply_segments sha256 modRel modC e.applied_hash st.game st.backups
      F m b l1 l2 hF hb hmod hguard hprot1 hprot2).2

/-- Witness for C5 at a concrete state: a mod applied earlier (applied hash
recorded), the game file mutated to new bytes `9`, an old backup holding the
original bytes `1`. -/
theorem reapply_rebackups_external_change_witness :
    fsLookup (_apply_mod fingerprint [("M"), ("foo.unity3d")] 7
        ⟨[([("A"), ("foo.unity3d")], 9)],
         [([("M"), ("foo.unity3d.backup.A")], 1)],
         ⟨[⟨[("M"), ("foo.unity3d")], fingerprint 7, fingerprint 7, true⟩], false⟩⟩).1.backups
        (get_backup_path [("M"), ("foo.unity3d")] [("A"), ("foo.unity3d")]) = some 9
    ∧ fsLookup (_unapply_mod [("M"), ("foo.unity3d")]
        (_apply_mod fingerprint [("M"), ("foo.unity3d")] 7
          ⟨[([("A"), ("foo.unity3d")], 9)],
           [([("M"), ("foo.unity3d.backup.A")], 1)],
           ⟨[⟨[("M"), ("foo.unity3d")], fingerprint 7, fingerprint 7, true⟩],
             false⟩⟩).1).game
        [("A"), ("foo.unity3d")] = some 9 :=
  reapply_rebackups_external_change fingerprint [("M"), ("foo.unity3d")] 7
    ⟨[([("A"), ("foo.unity3d")], 9)],
     [([("M"), ("foo.unity3d.backup.A")], 1)],
     ⟨[⟨[("M"), ("foo.unity3d")], fingerprint 7, fingerprint 7, true⟩], false⟩⟩
    [("A"), ("foo.unity3d")] 9 1
    ⟨[("M"), ("foo.unity3d")], fingerprint 7, fingerprint 7, true⟩
    (by decide) (by decide) (by decide) (by decide) (by decide) (by decide)
    (by decide) (by decide) (by decide)

end SSML
